import Mathlib

/-!
Verification development for the aggregator core of
`aligned_layer` (`src/aggregator/pkg/aggregator.go`).

The Go registry state is a struct of five maps plus a `uint32` counter,
all protected by `taskMutex`.  We embed it shallowly:

* Go maps become association lists (`List (K × V)`) with executable
  `lookupM` / `insertM` / `eraseM`; a Go read without the comma-ok idiom
  becomes `(lookupM m k).getD <zero value>`, matching Go's zero-value
  semantics for absent keys.
* `uint32` arithmetic is `Nat` with explicit `% 2^32` where the Go code
  can overflow (`nextBatchIndex += 1`).
* Byte strings (`[32]byte`, `[20]byte`) are `List Nat`; the external
  `crypto.Keccak256` (a collaborator, not part of this repository) is a
  function parameter `keccak256 : Bytes → Bytes`.
* External effects (telemetry, the BLS service init call, the chain
  writer) are recorded as returned values / event lists, so theorems can
  count the calls the code makes.  Mutex acquisition itself is not
  modelled: each embedded operation is one atomic step, which is exactly
  the serialization `taskMutex` provides in the Go code.
-/

set_option linter.unusedVariables false

/-! ## Association-list maps (the embedding of Go maps) -/

def lookupM {K V : Type} [DecidableEq K] : List (K × V) → K → Option V
  | [], _ => none
  | (k', v) :: rest, k => if k' = k then some v else lookupM rest k

def insertM {K V : Type} [DecidableEq K] : List (K × V) → K → V → List (K × V)
  | [], k, v => [(k, v)]
  | (k', v') :: rest, k, v =>
      if k' = k then (k, v) :: rest else (k', v') :: insertM rest k v

def eraseM {K V : Type} [DecidableEq K] : List (K × V) → K → List (K × V)
  | [], _ => []
  | (k', v) :: rest, k =>
      if k' = k then eraseM rest k else (k', v) :: eraseM rest k

def countKeyM {K V : Type} [DecidableEq K] : List (K × V) → K → Nat
  | [], _ => 0
  | (k', _) :: rest, k => (if k' = k then 1 else 0) + countKeyM rest k

theorem lookupM_insertM_self {K V : Type} [DecidableEq K]
    (m : List (K × V)) (k : K) (v : V) :
    lookupM (insertM m k v) k = some v := by
  induction m with
  | nil => simp [insertM, lookupM]
  | cons p rest ih =>
      obtain ⟨k', v'⟩ := p
      by_cases h : k' = k
      · simp [insertM, lookupM, h]
      · simp [insertM, lookupM, h, ih]

theorem lookupM_insertM_ne {K V : Type} [DecidableEq K]
    (m : List (K × V)) (k : K) (v : V) (k' : K) (h : k' ≠ k) :
    lookupM (insertM m k v) k' = lookupM m k' := by
  have h' : ¬ k = k' := fun hh => h hh.symm
  induction m with
  | nil => simp [insertM, lookupM, h']
  | cons p rest ih =>
      obtain ⟨k'', v''⟩ := p
      by_cases h2 : k'' = k
      · subst h2
        simp [insertM, lookupM, h']
      · by_cases h3 : k'' = k'
        · subst h3
          simp [insertM, lookupM, h2, h]
        · simp [insertM, lookupM, h2, h3, ih]

theorem lookupM_eraseM_self {K V : Type} [DecidableEq K]
    (m : List (K × V)) (k : K) :
    lookupM (eraseM m k) k = none := by
  induction m with
  | nil => simp [eraseM, lookupM]
  | cons p rest ih =>
      obtain ⟨k', v'⟩ := p
      by_cases h : k' = k
      · simp [eraseM, h, ih]
      · simp [eraseM, lookupM, h, ih]

theorem lookupM_eraseM_ne {K V : Type} [DecidableEq K]
    (m : List (K × V)) (k : K) (k' : K) (h : k' ≠ k) :
    lookupM (eraseM m k) k' = lookupM m k' := by
  have h' : ¬ k = k' := fun hh => h hh.symm
  induction m with
  | nil => simp [eraseM]
  | cons p rest ih =>
      obtain ⟨k'', v''⟩ := p
      by_cases h2 : k'' = k
      · subst h2
        simp [eraseM, lookupM, h', ih]
      · simp [eraseM, lookupM, h2, ih]

theorem lookupM_mem {K V : Type} [DecidableEq K]
    {m : List (K × V)} {k : K} {v : V} (h : lookupM m k = some v) :
    (k, v) ∈ m := by
  induction m with
  | nil => simp [lookupM] at h
  | cons p rest ih =>
      obtain ⟨k', v'⟩ := p
      by_cases h2 : k' = k
      · subst h2
        simp [lookupM] at h
        subst h
        exact List.mem_cons_self _ _
      · simp [lookupM, h2] at h
        exact List.mem_cons_of_mem _ (ih h)

theorem lookupM_append {K V : Type} [DecidableEq K]
    (m1 m2 : List (K × V)) (k : K) :
    lookupM (m1 ++ m2) k =
      (match lookupM m1 k with
       | some v => some v
       | none => lookupM m2 k) := by
  induction m1 with
  | nil => simp [lookupM]
  | cons p rest ih =>
      obtain ⟨k', v'⟩ := p
      by_cases h : k' = k
      · simp [lookupM, h]
      · simp [lookupM, h, ih]

theorem insertM_of_lookupM_none {K V : Type} [DecidableEq K]
    {m : List (K × V)} {k : K} (h : lookupM m k = none) (v : V) :
    insertM m k v = m ++ [(k, v)] := by
  induction m with
  | nil => simp [insertM]
  | cons p rest ih =>
      obtain ⟨k', v'⟩ := p
      by_cases h2 : k' = k
      · simp [lookupM, h2] at h
      · simp [lookupM, h2] at h
        simp [insertM, h2, ih h]

theorem countKeyM_insertM_of_none {K V : Type} [DecidableEq K]
    {m : List (K × V)} {k : K} (h : lookupM m k = none) (v : V) :
    countKeyM (insertM m k v) k = 1 := by
  induction m with
  | nil => simp [insertM, countKeyM]
  | cons p rest ih =>
      obtain ⟨k', v'⟩ := p
      by_cases h2 : k' = k
      · simp [lookupM, h2] at h
      · simp [lookupM, h2] at h
        simp [insertM, countKeyM, h2, ih h]

/-! ## Data model (aggregator.go lines 30-98) -/

/-- Byte strings stand in for Go's `[32]byte` / `[20]byte` / `[]byte`. -/
abbrev Bytes := List Nat

/-- Modulus of Go's `uint32`, for `nextBatchIndex += 1` (line 408). -/
def UINT32_MOD : Nat := 4294967296

/-- Go zero value of `[32]byte`, read back for an absent index
(line 239 reads the map without the comma-ok idiom). -/
def zeroIdentifierHash : Bytes := List.replicate 32 0

/-- Go zero value of the 32-byte merkle root inside `BatchData`. -/
def zeroMerkleRoot : Bytes := List.replicate 32 0

/-- Go zero value of the 20-byte sender address inside `BatchData`. -/
def zeroSenderAddress : Bytes := List.replicate 20 0

/-- Constant from line 31: `QUORUM_NUMBER = byte(0)`. -/
def QUORUM_NUMBER : Nat := 0

/-- Constant from line 32: `QUORUM_THRESHOLD = byte(67)`. -/
def QUORUM_THRESHOLD : Nat := 67

/-- BatchData (lines 38-41): payload stored per identifier hash. -/
structure BatchData where
  batchMerkleRoot : Bytes
  senderAddress : Bytes
deriving DecidableEq

/-- Go zero value of `BatchData`, read back for an absent hash (line 240). -/
def zeroBatchData : BatchData := ⟨zeroMerkleRoot, zeroSenderAddress⟩

/-- Registry state of the `Aggregator` struct (lines 56-76): the five
maps protected by `taskMutex` plus `nextBatchIndex`. -/
structure AggregatorState where
  batchesIdentifierHashByIdx : List (Nat × Bytes)
  batchesIdxByIdentifierHash : List (Bytes × Nat)
  batchCreatedBlockByIdx : List (Nat × Nat)
  batchDataByIdentifierHash : List (Bytes × BatchData)
  batchStartTimeByIdx : List (Nat × Nat)
  nextBatchIndex : Nat
deriving DecidableEq

/-- Initial registry (NewAggregator, lines 127-131 and 167): empty maps,
`nextBatchIndex = uint32(0)`. -/
def initAggregatorState : AggregatorState := ⟨[], [], [], [], [], 0⟩

/-- Arguments of the one `InitializeNewTaskWithWindow` call AddNewTask
makes (line 413); returned so theorems can count invocations. -/
structure InitCall where
  taskIndex : Nat
  taskCreatedBlock : Nat
  quorumNums : List Nat
  quorumThresholdPercentages : List Nat
deriving DecidableEq

/-! ## Intake: AddNewTask (aggregator.go lines 365-422) -/

/-- AddNewTask (lines 365-422).  Computes the batch identifier hash as
`keccak256(batchMerkleRoot ++ senderAddress)` (lines 367-368), returns
unchanged on the duplicate-hash guard (lines 380-385) and on the
defensive occupied-index guard (lines 388-393), otherwise inserts into
all five maps (lines 395-402), increments `nextBatchIndex` in `uint32`
arithmetic (line 408) and calls `InitializeNewTaskWithWindow`
(line 413), reported as the returned `InitCall`.  `now` stands for
`time.Now()` (line 402). -/
def AddNewTask (keccak256 : Bytes → Bytes) (s : AggregatorState)
    (batchMerkleRoot senderAddress : Bytes) (taskCreatedBlock now : Nat) :
    AggregatorState × Option InitCall :=
  let batchIdentifier := batchMerkleRoot ++ senderAddress
  let batchIdentifierHash := keccak256 batchIdentifier
  let batchIndex := s.nextBatchIndex
  if (lookupM s.batchesIdxByIdentifierHash batchIdentifierHash).isSome then
    (s, none)
  else if (lookupM s.batchesIdentifierHashByIdx batchIndex).isSome then
    (s, none)
  else
    ({ batchesIdentifierHashByIdx :=
         insertM s.batchesIdentifierHashByIdx batchIndex batchIdentifierHash
       batchesIdxByIdentifierHash :=
         insertM s.batchesIdxByIdentifierHash batchIdentifierHash batchIndex
       batchCreatedBlockByIdx :=
         insertM s.batchCreatedBlockByIdx batchIndex taskCreatedBlock
       batchDataByIdentifierHash :=
         insertM s.batchDataByIdentifierHash batchIdentifierHash
           ⟨batchMerkleRoot, senderAddress⟩
       batchStartTimeByIdx := insertM s.batchStartTimeByIdx batchIndex now
       nextBatchIndex := (s.nextBatchIndex + 1) % UINT32_MOD },
     some ⟨batchIndex, taskCreatedBlock, [QUORUM_NUMBER], [QUORUM_THRESHOLD]⟩)

/-! ## Garbage collector: ClearTasksFromMaps (aggregator.go lines 429-477) -/

/-- Body of one iteration of the deletion loop (lines 460-470): if index
`i` is live, delete its entries from all five maps; otherwise skip. -/
def deleteTaskFromMaps (s : AggregatorState) (i : Nat) : AggregatorState :=
  match lookupM s.batchesIdentifierHashByIdx i with
  | some batchIdentifierHash =>
      { batchesIdentifierHashByIdx := eraseM s.batchesIdentifierHashByIdx i
        batchesIdxByIdentifierHash :=
          eraseM s.batchesIdxByIdentifierHash batchIdentifierHash
        batchCreatedBlockByIdx := eraseM s.batchCreatedBlockByIdx i
        batchDataByIdentifierHash :=
          eraseM s.batchDataByIdentifierHash batchIdentifierHash
        batchStartTimeByIdx := eraseM s.batchStartTimeByIdx i
        nextBatchIndex := s.nextBatchIndex }
  | none => s

/-- The sequence of distinct values the `uint32` loop counter of
`for i := lastIdxDeleted + 1; i <= taskIdxToDelete; i++` (line 459)
takes.  Both `i` and `taskIdxToDelete` are Go `uint32`, so the counter
starts at `(lastIdxDeleted + 1) mod 2^32` and increments modulo 2^32.
When `taskIdxToDelete = 2^32 - 1` the exit condition `i <= taskIdxToDelete`
holds for every `uint32` value: the counter wraps past MaxUint32 and the
loop cycles through all of `[start, 2^32-1] ++ [0, start-1]` — every
`uint32` index once — and then repeats this cycle forever without
terminating; since the loop body only deletes and nothing can insert
while `taskMutex` is held, the repeated cycles change nothing further,
so the maps converge to the fold over that one full cycle.  Otherwise
the loop covers `[start, taskIdxToDelete]` (empty when
`start > taskIdxToDelete`) and exits. -/
def gcLoopIndices (lastIdxDeleted taskIdxToDelete : Nat) : List Nat :=
  let start := (lastIdxDeleted + 1) % UINT32_MOD
  if taskIdxToDelete = UINT32_MOD - 1 then
    List.range' start (UINT32_MOD - start) ++ List.range start
  else if start ≤ taskIdxToDelete then
    List.range' start (taskIdxToDelete + 1 - start)
  else
    []

/-- One tick of ClearTasksFromMaps after `GetOldTaskHash` returned a hash
(lines 456-472): `taskIdxToDelete` is the Go comma-ok-less map read
(zero value `0` when absent, line 456), and the deletion loop's body
runs once for each counter value in `gcLoopIndices` (line 459).  The
second component is the watermark after the tick: `some taskIdxToDelete`
when the loop exits and line 472 runs; `none` when
`taskIdxToDelete = 2^32 - 1`, where the `uint32` loop never terminates —
the first component is then the value the maps converge to while the
goroutine spins forever inside the loop, and control never reaches the
watermark assignment. -/
def clearTasksIteration (s : AggregatorState) (lastIdxDeleted : Nat)
    (oldTaskIdHash : Bytes) : AggregatorState × Option Nat :=
  let taskIdxToDelete :=
    (lookupM s.batchesIdxByIdentifierHash oldTaskIdHash).getD 0
  let s' := (gcLoopIndices lastIdxDeleted taskIdxToDelete).foldl
    deleteTaskFromMaps s
  if taskIdxToDelete = UINT32_MOD - 1 then (s', none) else (s', some taskIdxToDelete)

theorem clearTasksIteration_fst (s : AggregatorState) (lastIdxDeleted : Nat)
    (oldTaskIdHash : Bytes) :
    (clearTasksIteration s lastIdxDeleted oldTaskIdHash).1 =
      (gcLoopIndices lastIdxDeleted
        ((lookupM s.batchesIdxByIdentifierHash oldTaskIdHash).getD 0)).foldl
        deleteTaskFromMaps s := by
  unfold clearTasksIteration
  by_cases hc : (lookupM s.batchesIdxByIdentifierHash oldTaskIdHash).getD 0 =
      UINT32_MOD - 1 <;> simp [hc]

/-! ## Response handling (aggregator.go lines 229-363) -/

/-- BLS aggregation-service response, restricted to the fields the
handler's control flow reads: the task index and the error field.  The
signature payload fields (`NonSignersPubkeysG1`, …) are passed through
to the send call unchanged and carry no registry state. -/
structure BlsAggregationServiceResponse where
  taskIndex : Nat
  err : Option String
deriving DecidableEq

/-- Transaction receipt, restricted to the two fields the handler reads
(lines 300-301): tx hash and effective gas price, as their `.String()`
renderings. -/
structure Receipt where
  txHash : String
  effectiveGasPrice : String
deriving DecidableEq

/-- Externally visible calls the handler makes, in order.  `sendCall`
records the arguments of `avsWriter.SendAggregatedResponse`
(via `sendAggregatedResponse`, line 294). -/
inductive AggEvent where
  | finishTrace (merkleRoot : Bytes)
  | logTaskError (merkleRoot : Bytes)
  | logQuorumReached (merkleRoot : Bytes)
  | observeTaskQuorumReached
  | waitForOneBlock (fromBlock : Nat)
  | sendCall (batchIdentifierHash : Bytes) (batchMerkleRoot : Bytes)
      (senderAddress : Bytes)
  | observeLatencyForRespondToTask
  | incAggregatedResponses
  | taskSentToEthereum (merkleRoot : Bytes) (txHash : String)
      (effectiveGasPrice : String)
deriving DecidableEq

/-- Decides whether an event is the `SendAggregatedResponse` call. -/
def isSendCallEvent : AggEvent → Bool
  | .sendCall _ _ _ => true
  | _ => false

/-- The identifier hash the handler fetches for a task index (line 239):
a Go map read without comma-ok, yielding the zero `[32]byte` when the
index is absent. -/
def fetchedIdentifierHash (s : AggregatorState) (taskIndex : Nat) : Bytes :=
  (lookupM s.batchesIdentifierHashByIdx taskIndex).getD zeroIdentifierHash

/-- The batch data the handler fetches (line 240): keyed by the fetched
identifier hash, yielding the zero `BatchData` when absent. -/
def fetchedBatchData (s : AggregatorState) (taskIndex : Nat) : BatchData :=
  (lookupM s.batchDataByIdentifierHash (fetchedIdentifierHash s taskIndex)).getD
    zeroBatchData

/-- The creation block the handler fetches (line 241): zero when absent. -/
def fetchedTaskCreatedBlock (s : AggregatorState) (taskIndex : Nat) : Nat :=
  (lookupM s.batchCreatedBlockByIdx taskIndex).getD 0

/-- sendAggregatedResponse (lines 322-363).  The chain writer is
external, so its outcome is the argument `writerResult`
(`.error e` = the Go `(nil, err)` case, `.ok receipt` with optional
receipt = the Go `(receipt, nil)` case, the receipt pointer possibly
nil).  On writer error the method returns `(nil, err)` (lines 348-352);
on success it records the latency metric and increments the
aggregated-responses metric (lines 355-360) and returns
`(receipt, nil)` (line 362). -/
def sendAggregatedResponse (batchIdentifierHash batchMerkleRoot senderAddress : Bytes)
    (writerResult : Except String (Option Receipt)) :
    Except String (Option Receipt) × List AggEvent :=
  match writerResult with
  | .error e => (.error e, [])
  | .ok receipt =>
      (.ok receipt, [.observeLatencyForRespondToTask, .incAggregatedResponses])

/-- handleBlsAggServiceResponse (lines 229-318).  Fetches the task data
under `taskMutex` (lines 237-243, pure reads, so the registry state is
returned unchanged), arranges `FinishTrace` on every exit path
(line 247), returns early on a response error (lines 249-253), otherwise
waits one block best-effort (line 287, `waitErr` is the external
outcome, log-only) and submits via `sendAggregatedResponse` (line 294).
On send success the tx hash and gas price are reported, with the
sentinel `"Unknown"` when the receipt is nil (lines 295-308); on send
failure the batch is abandoned with error telemetry (lines 311-317). -/
def handleBlsAggServiceResponse (s : AggregatorState)
    (resp : BlsAggregationServiceResponse) (waitErr : Option String)
    (writerResult : Except String (Option Receipt)) :
    AggregatorState × List AggEvent :=
  let batchIdentifierHash := fetchedIdentifierHash s resp.taskIndex
  let batchData := fetchedBatchData s resp.taskIndex
  let taskCreatedBlock := fetchedTaskCreatedBlock s resp.taskIndex
  match resp.err with
  | some _ =>
      (s, [.logTaskError batchData.batchMerkleRoot,
           .finishTrace batchData.batchMerkleRoot])
  | none =>
      let sendResult := sendAggregatedResponse batchIdentifierHash
        batchData.batchMerkleRoot batchData.senderAddress writerResult
      match sendResult.1 with
      | .ok receipt =>
          let txHash := match receipt with
            | some r => r.txHash
            | none => "Unknown"
          let effectiveGasPrice := match receipt with
            | some r => r.effectiveGasPrice
            | none => "Unknown"
          (s, [.logQuorumReached batchData.batchMerkleRoot,
               .observeTaskQuorumReached,
               .waitForOneBlock taskCreatedBlock,
               .sendCall batchIdentifierHash batchData.batchMerkleRoot
                 batchData.senderAddress]
              ++ sendResult.2
              ++ [.taskSentToEthereum batchData.batchMerkleRoot txHash
                    effectiveGasPrice,
                  .finishTrace batchData.batchMerkleRoot])
      | .error _ =>
          (s, [.logQuorumReached batchData.batchMerkleRoot,
               .observeTaskQuorumReached,
               .waitForOneBlock taskCreatedBlock,
               .sendCall batchIdentifierHash batchData.batchMerkleRoot
                 batchData.senderAddress]
              ++ sendResult.2
              ++ [.logTaskError batchData.batchMerkleRoot,
                  .finishTrace batchData.batchMerkleRoot])

/-! ## Registry-level operation sequences -/

/-- Combined state: the registry plus the GC loop's local watermark
`lastIdxDeleted` (line 438), which persists across ticks, plus a
`halted` flag recording that a GC tick's deletion loop never terminated:
the goroutine then spins forever holding `taskMutex`, so no later
operation can acquire the lock and run. -/
structure SysState where
  agg : AggregatorState
  lastIdxDeleted : Nat
  halted : Bool
deriving DecidableEq

/-- Initial system state: fresh registry, `lastIdxDeleted := uint32(0)`
(line 438), not halted. -/
def initSysState : SysState := ⟨initAggregatorState, 0, false⟩

/-- Registry-mutating operations: an intake call, or one GC tick whose
`GetOldTaskHash` outcome is `none` (chain error or no old task, both of
which `continue` without touching the maps, lines 445-452) or a hash. -/
inductive AggOp where
  | addNewTask (batchMerkleRoot senderAddress : Bytes)
      (taskCreatedBlock now : Nat)
  | gcTick (oldTaskIdHash : Option Bytes)
deriving DecidableEq

/-- One registry-mutating step.  Once halted (a previous tick's loop
never exited), no operation can take `taskMutex`, so every step is a
no-op.  A tick whose deletion loop never terminates leaves the maps at
the loop's limit value, keeps the old watermark (the assignment at
line 472 never executes), and halts the system. -/
def stepOp (keccak256 : Bytes → Bytes) (s : SysState) (op : AggOp) : SysState :=
  if s.halted then s
  else
    match op with
    | .addNewTask mr sender blk now =>
        ⟨(AddNewTask keccak256 s.agg mr sender blk now).1, s.lastIdxDeleted, false⟩
    | .gcTick none => s
    | .gcTick (some h) =>
        let r := clearTasksIteration s.agg s.lastIdxDeleted h
        match r.2 with
        | some w => ⟨r.1, w, false⟩
        | none => ⟨r.1, s.lastIdxDeleted, true⟩

/-- Runs a sequence of registry-mutating operations. -/
def runOps (keccak256 : Bytes → Bytes) (s : SysState) (ops : List AggOp) :
    SysState :=
  ops.foldl (stepOp keccak256) s

/-- Number of operations in the sequence that are actually admitted
(the non-duplicate `AddNewTask` calls, those whose run reaches the map
inserts and the `InitializeNewTaskWithWindow` call; once the system is
halted no call runs at all). -/
def admittedCount (keccak256 : Bytes → Bytes) : SysState → List AggOp → Nat
  | _, [] => 0
  | s, op :: rest =>
      (match op with
       | .addNewTask mr sender blk now =>
           if s.halted then 0
           else if (AddNewTask keccak256 s.agg mr sender blk now).2.isSome then 1
           else 0
       | .gcTick _ => 0)
      + admittedCount keccak256 (stepOp keccak256 s op) rest

/-! ## Registry invariants

The lookup-level invariant that holds at every `taskMutex` release:
mutual inverseness of the two index maps, completeness of the three side
tables, and the `uint32` bound on `nextBatchIndex`. -/

structure InvL (s : AggregatorState) : Prop where
  idx_of_hash : ∀ h i, lookupM s.batchesIdxByIdentifierHash h = some i →
    lookupM s.batchesIdentifierHashByIdx i = some h
  hash_of_idx : ∀ i h, lookupM s.batchesIdentifierHashByIdx i = some h →
    lookupM s.batchesIdxByIdentifierHash h = some i
  data_of_idx : ∀ i h, lookupM s.batchesIdentifierHashByIdx i = some h →
    (lookupM s.batchDataByIdentifierHash h).isSome = true
  block_iff : ∀ i, (lookupM s.batchCreatedBlockByIdx i).isSome =
    (lookupM s.batchesIdentifierHashByIdx i).isSome
  time_iff : ∀ i, (lookupM s.batchStartTimeByIdx i).isSome =
    (lookupM s.batchesIdentifierHashByIdx i).isSome
  next_lt : s.nextBatchIndex < UINT32_MOD
  idx_lt : ∀ h i, lookupM s.batchesIdxByIdentifierHash h = some i →
    i < UINT32_MOD

theorem invL_init : InvL initAggregatorState := by
  constructor <;> simp [initAggregatorState, lookupM, UINT32_MOD]

theorem invL_addNewTask (keccak256 : Bytes → Bytes) (s : AggregatorState)
    (mr sender : Bytes) (blk now : Nat) (hs : InvL s) :
    InvL (AddNewTask keccak256 s mr sender blk now).1 := by
  unfold AddNewTask
  cases hx1 : lookupM s.batchesIdxByIdentifierHash (keccak256 (mr ++ sender)) with
  | some i0 => simpa [hx1] using hs
  | none =>
    cases hx2 : lookupM s.batchesIdentifierHashByIdx s.nextBatchIndex with
    | some h0 => simpa [hx1, hx2] using hs
    | none =>
      simp only [hx1, hx2, Option.isSome_none, Bool.false_eq_true, if_false]
      constructor
      · intro h i hl
        by_cases hh : h = keccak256 (mr ++ sender)
        · subst hh
          rw [lookupM_insertM_self] at hl
          obtain rfl : i = s.nextBatchIndex := by
            simpa using hl.symm
          exact lookupM_insertM_self _ _ _
        · rw [lookupM_insertM_ne _ _ _ _ hh] at hl
          have hold := hs.idx_of_hash h i hl
          have hi : i ≠ s.nextBatchIndex := by
            intro hcontra
            rw [hcontra, hx2] at hold
            exact Option.noConfusion hold
          rw [lookupM_insertM_ne _ _ _ _ hi]
          exact hold
      · intro i h hl
        by_cases hi : i = s.nextBatchIndex
        · subst hi
          rw [lookupM_insertM_self] at hl
          obtain rfl : h = keccak256 (mr ++ sender) := by
            simpa using hl.symm
          exact lookupM_insertM_self _ _ _
        · rw [lookupM_insertM_ne _ _ _ _ hi] at hl
          have hold := hs.hash_of_idx i h hl
          have hh : h ≠ keccak256 (mr ++ sender) := by
            intro hcontra
            rw [hcontra, hx1] at hold
            exact Option.noConfusion hold
          rw [lookupM_insertM_ne _ _ _ _ hh]
          exact hold
      · intro i h hl
        by_cases hi : i = s.nextBatchIndex
        · subst hi
          rw [lookupM_insertM_self] at hl
          obtain rfl : h = keccak256 (mr ++ sender) := by
            simpa using hl.symm
          rw [lookupM_insertM_self]
          rfl
        · rw [lookupM_insertM_ne _ _ _ _ hi] at hl
          by_cases hh : h = keccak256 (mr ++ sender)
          · subst hh
            rw [lookupM_insertM_self]
            rfl
          · rw [lookupM_insertM_ne _ _ _ _ hh]
            exact hs.data_of_idx i h hl
      · intro i
        by_cases hi : i = s.nextBatchIndex
        · subst hi
          rw [lookupM_insertM_self, lookupM_insertM_self]
          rfl
        · rw [lookupM_insertM_ne _ _ _ _ hi, lookupM_insertM_ne _ _ _ _ hi]
          exact hs.block_iff i
      · intro i
        by_cases hi : i = s.nextBatchIndex
        · subst hi
          rw [lookupM_insertM_self, lookupM_insertM_self]
          rfl
        · rw [lookupM_insertM_ne _ _ _ _ hi, lookupM_insertM_ne _ _ _ _ hi]
          exact hs.time_iff i
      · exact Nat.mod_lt _ (by norm_num [UINT32_MOD])
      · intro h i hl
        by_cases hh : h = keccak256 (mr ++ sender)
        · subst hh
          rw [lookupM_insertM_self] at hl
          obtain rfl : i = s.nextBatchIndex := by
            simpa using hl.symm
          exact hs.next_lt
        · rw [lookupM_insertM_ne _ _ _ _ hh] at hl
          exact hs.idx_lt h i hl

theorem invL_deleteTask (s : AggregatorState) (j : Nat) (hs : InvL s) :
    InvL (deleteTaskFromMaps s j) := by
  unfold deleteTaskFromMaps
  cases hx : lookupM s.batchesIdentifierHashByIdx j with
  | none => exact hs
  | some hj =>
    have hjinv : lookupM s.batchesIdxByIdentifierHash hj = some j :=
      hs.hash_of_idx j hj hx
    constructor
    · intro h i hl
      by_cases hh : h = hj
      · subst hh
        rw [lookupM_eraseM_self] at hl
        exact Option.noConfusion hl
      · rw [lookupM_eraseM_ne _ _ _ hh] at hl
        have hold := hs.idx_of_hash h i hl
        have hi : i ≠ j := by
          intro hcontra
          rw [hcontra, hx] at hold
          exact hh (by simpa using hold.symm)
        rw [lookupM_eraseM_ne _ _ _ hi]
        exact hold
    · intro i h hl
      by_cases hi : i = j
      · subst hi
        rw [lookupM_eraseM_self] at hl
        exact Option.noConfusion hl
      · rw [lookupM_eraseM_ne _ _ _ hi] at hl
        have hold := hs.hash_of_idx i h hl
        have hh : h ≠ hj := by
          intro hcontra
          rw [hcontra, hjinv] at hold
          exact hi (by simpa using hold.symm)
        rw [lookupM_eraseM_ne _ _ _ hh]
        exact hold
    · intro i h hl
      by_cases hi : i = j
      · subst hi
        rw [lookupM_eraseM_self] at hl
        exact Option.noConfusion hl
      · rw [lookupM_eraseM_ne _ _ _ hi] at hl
        have hold := hs.hash_of_idx i h hl
        have hh : h ≠ hj := by
          intro hcontra
          rw [hcontra, hjinv] at hold
          exact hi (by simpa using hold.symm)
        rw [lookupM_eraseM_ne _ _ _ hh]
        exact hs.data_of_idx i h hl
    · intro i
      by_cases hi : i = j
      · subst hi
        rw [lookupM_eraseM_self, lookupM_eraseM_self]
        rfl
      · rw [lookupM_eraseM_ne _ _ _ hi, lookupM_eraseM_ne _ _ _ hi]
        exact hs.block_iff i
    · intro i
      by_cases hi : i = j
      · subst hi
        rw [lookupM_eraseM_self, lookupM_eraseM_self]
        rfl
      · rw [lookupM_eraseM_ne _ _ _ hi, lookupM_eraseM_ne _ _ _ hi]
        exact hs.time_iff i
    · exact hs.next_lt
    · intro h i hl
      by_cases hh : h = hj
      · subst hh
        rw [lookupM_eraseM_self] at hl
        exact Option.noConfusion hl
      · rw [lookupM_eraseM_ne _ _ _ hh] at hl
        exact hs.idx_lt h i hl

theorem invL_foldDelete (L : List Nat) (s : AggregatorState) (hs : InvL s) :
    InvL (L.foldl deleteTaskFromMaps s) := by
  induction L generalizing s with
  | nil => exact hs
  | cons j rest ih => exact ih _ (invL_deleteTask s j hs)

theorem invL_stepOp (keccak256 : Bytes → Bytes) (s : SysState) (op : AggOp)
    (hs : InvL s.agg) : InvL (stepOp keccak256 s op).agg := by
  unfold stepOp
  by_cases hh : s.halted
  · simp only [hh, if_true]
    exact hs
  · simp only [hh, Bool.false_eq_true, if_false]
    cases op with
    | addNewTask mr sender blk now =>
        exact invL_addNewTask keccak256 s.agg mr sender blk now hs
    | gcTick o =>
        cases o with
        | none => exact hs
        | some h =>
            have hfold : InvL (clearTasksIteration s.agg s.lastIdxDeleted h).1 := by
              rw [clearTasksIteration_fst]
              exact invL_foldDelete _ _ hs
            cases hr : (clearTasksIteration s.agg s.lastIdxDeleted h).2 with
            | some w => simpa [hr] using hfold
            | none => simpa [hr] using hfold

theorem invL_runOps_from (keccak256 : Bytes → Bytes) (ops : List AggOp)
    (s : SysState) (hs : InvL s.agg) : InvL (runOps keccak256 s ops).agg := by
  induction ops generalizing s with
  | nil => exact hs
  | cons op rest ih => exact ih _ (invL_stepOp keccak256 s op hs)

theorem invL_runOps (keccak256 : Bytes → Bytes) (ops : List AggOp) :
    InvL (runOps keccak256 initSysState ops).agg :=
  invL_runOps_from keccak256 ops initSysState invL_init

theorem lastIdx_stepOp (keccak256 : Bytes → Bytes) (s : SysState) (op : AggOp)
    (hs : InvL s.agg) (hw : s.lastIdxDeleted + 1 < UINT32_MOD) :
    (stepOp keccak256 s op).lastIdxDeleted + 1 < UINT32_MOD := by
  unfold stepOp
  by_cases hh : s.halted
  · simp only [hh, if_true]
    exact hw
  · simp only [hh, Bool.false_eq_true, if_false]
    cases op with
    | addNewTask mr sender blk now => exact hw
    | gcTick o =>
        cases o with
        | none => exact hw
        | some h =>
            cases hr : (clearTasksIteration s.agg s.lastIdxDeleted h).2 with
            | none => simpa [hr] using hw
            | some w =>
                simp only [hr]
                have hw2 : w = (lookupM s.agg.batchesIdxByIdentifierHash h).getD 0 ∧
                    (lookupM s.agg.batchesIdxByIdentifierHash h).getD 0 ≠
                      UINT32_MOD - 1 := by
                  unfold clearTasksIteration at hr
                  by_cases hc : (lookupM s.agg.batchesIdxByIdentifierHash h).getD 0 =
                      UINT32_MOD - 1
                  · simp [hc] at hr
                  · simp [hc] at hr
                    exact ⟨hr.symm, hc⟩
                have hlt : (lookupM s.agg.batchesIdxByIdentifierHash h).getD 0 <
                    UINT32_MOD := by
                  cases hx : lookupM s.agg.batchesIdxByIdentifierHash h with
                  | none =>
                      simp only [Option.getD_none]
                      norm_num [UINT32_MOD]
                  | some i => simpa using hs.idx_lt h i hx
                have hM : 0 < UINT32_MOD := by norm_num [UINT32_MOD]
                obtain ⟨rfl, hne⟩ := hw2
                omega

theorem lastIdx_runOps (keccak256 : Bytes → Bytes) (ops : List AggOp) :
    (runOps keccak256 initSysState ops).lastIdxDeleted + 1 < UINT32_MOD := by
  suffices haux : ∀ (l : List AggOp) (s : SysState), InvL s.agg →
      s.lastIdxDeleted + 1 < UINT32_MOD →
      (runOps keccak256 s l).lastIdxDeleted + 1 < UINT32_MOD by
    exact haux ops initSysState invL_init (by norm_num [initSysState, UINT32_MOD])
  intro l
  induction l with
  | nil =>
      intro s h1 h2
      exact h2
  | cons op rest ih =>
      intro s h1 h2
      exact ih _ (invL_stepOp keccak256 s op h1) (lastIdx_stepOp keccak256 s op h1 h2)

/-! ## Lemmas about the GC deletion loop -/

theorem deleteTask_nextBatchIndex (s : AggregatorState) (j : Nat) :
    (deleteTaskFromMaps s j).nextBatchIndex = s.nextBatchIndex := by
  unfold deleteTaskFromMaps
  cases lookupM s.batchesIdentifierHashByIdx j <;> rfl

theorem foldDelete_nextBatchIndex (L : List Nat) (s : AggregatorState) :
    (L.foldl deleteTaskFromMaps s).nextBatchIndex = s.nextBatchIndex := by
  induction L generalizing s with
  | nil => rfl
  | cons j rest ih => rw [List.foldl_cons, ih, deleteTask_nextBatchIndex]

theorem deleteTask_hashByIdx_ne (s : AggregatorState) (j i : Nat) (hij : i ≠ j) :
    lookupM (deleteTaskFromMaps s j).batchesIdentifierHashByIdx i =
      lookupM s.batchesIdentifierHashByIdx i := by
  unfold deleteTaskFromMaps
  cases hx : lookupM s.batchesIdentifierHashByIdx j with
  | none => rfl
  | some hj => exact lookupM_eraseM_ne _ _ _ hij

theorem deleteTask_createdBlock_ne (s : AggregatorState) (j i : Nat) (hij : i ≠ j) :
    lookupM (deleteTaskFromMaps s j).batchCreatedBlockByIdx i =
      lookupM s.batchCreatedBlockByIdx i := by
  unfold deleteTaskFromMaps
  cases hx : lookupM s.batchesIdentifierHashByIdx j with
  | none => rfl
  | some hj => exact lookupM_eraseM_ne _ _ _ hij

theorem deleteTask_startTime_ne (s : AggregatorState) (j i : Nat) (hij : i ≠ j) :
    lookupM (deleteTaskFromMaps s j).batchStartTimeByIdx i =
      lookupM s.batchStartTimeByIdx i := by
  unfold deleteTaskFromMaps
  cases hx : lookupM s.batchesIdentifierHashByIdx j with
  | none => rfl
  | some hj => exact lookupM_eraseM_ne _ _ _ hij

theorem deleteTask_idxByHash_pres (s : AggregatorState) (j : Nat) (h0 : Bytes)
    (hp : ∀ hj, lookupM s.batchesIdentifierHashByIdx j = some hj → h0 ≠ hj) :
    lookupM (deleteTaskFromMaps s j).batchesIdxByIdentifierHash h0 =
      lookupM s.batchesIdxByIdentifierHash h0 := by
  unfold deleteTaskFromMaps
  cases hx : lookupM s.batchesIdentifierHashByIdx j with
  | none => rfl
  | some hj => exact lookupM_eraseM_ne _ _ _ (hp hj hx)

theorem deleteTask_dataByHash_pres (s : AggregatorState) (j : Nat) (h0 : Bytes)
    (hp : ∀ hj, lookupM s.batchesIdentifierHashByIdx j = some hj → h0 ≠ hj) :
    lookupM (deleteTaskFromMaps s j).batchDataByIdentifierHash h0 =
      lookupM s.batchDataByIdentifierHash h0 := by
  unfold deleteTaskFromMaps
  cases hx : lookupM s.batchesIdentifierHashByIdx j with
  | none => rfl
  | some hj => exact lookupM_eraseM_ne _ _ _ (hp hj hx)

theorem deleteTask_hashByIdx_none (s : AggregatorState) (j i : Nat)
    (h : lookupM s.batchesIdentifierHashByIdx i = none) :
    lookupM (deleteTaskFromMaps s j).batchesIdentifierHashByIdx i = none := by
  by_cases hij : i = j
  · subst hij
    unfold deleteTaskFromMaps
    rw [h]
    exact h
  · rw [deleteTask_hashByIdx_ne s j i hij]
    exact h

theorem deleteTask_createdBlock_none (s : AggregatorState) (j i : Nat)
    (h : lookupM s.batchCreatedBlockByIdx i = none) :
    lookupM (deleteTaskFromMaps s j).batchCreatedBlockByIdx i = none := by
  unfold deleteTaskFromMaps
  cases hx : lookupM s.batchesIdentifierHashByIdx j with
  | none => exact h
  | some hj =>
      by_cases hij : i = j
      · subst hij
        exact lookupM_eraseM_self _ _
      · rw [lookupM_eraseM_ne _ _ _ hij]
        exact h

theorem deleteTask_startTime_none (s : AggregatorState) (j i : Nat)
    (h : lookupM s.batchStartTimeByIdx i = none) :
    lookupM (deleteTaskFromMaps s j).batchStartTimeByIdx i = none := by
  unfold deleteTaskFromMaps
  cases hx : lookupM s.batchesIdentifierHashByIdx j with
  | none => exact h
  | some hj =>
      by_cases hij : i = j
      · subst hij
        exact lookupM_eraseM_self _ _
      · rw [lookupM_eraseM_ne _ _ _ hij]
        exact h

theorem deleteTask_idxByHash_none (s : AggregatorState) (j : Nat) (h0 : Bytes)
    (h : lookupM s.batchesIdxByIdentifierHash h0 = none) :
    lookupM (deleteTaskFromMaps s j).batchesIdxByIdentifierHash h0 = none := by
  unfold deleteTaskFromMaps
  cases hx : lookupM s.batchesIdentifierHashByIdx j with
  | none => exact h
  | some hj =>
      by_cases hh : h0 = hj
      · subst hh
        exact lookupM_eraseM_self _ _
      · rw [lookupM_eraseM_ne _ _ _ hh]
        exact h

theorem deleteTask_dataByHash_none (s : AggregatorState) (j : Nat) (h0 : Bytes)
    (h : lookupM s.batchDataByIdentifierHash h0 = none) :
    lookupM (deleteTaskFromMaps s j).batchDataByIdentifierHash h0 = none := by
  unfold deleteTaskFromMaps
  cases hx : lookupM s.batchesIdentifierHashByIdx j with
  | none => exact h
  | some hj =>
      by_cases hh : h0 = hj
      · subst hh
        exact lookupM_eraseM_self _ _
      · rw [lookupM_eraseM_ne _ _ _ hh]
        exact h

theorem foldDelete_hashByIdx_none (L : List Nat) (s : AggregatorState) (i : Nat)
    (h : lookupM s.batchesIdentifierHashByIdx i = none) :
    lookupM (L.foldl deleteTaskFromMaps s).batchesIdentifierHashByIdx i = none := by
  induction L generalizing s with
  | nil => exact h
  | cons j rest ih =>
      exact ih _ (deleteTask_hashByIdx_none s j i h)

theorem foldDelete_createdBlock_none (L : List Nat) (s : AggregatorState) (i : Nat)
    (h : lookupM s.batchCreatedBlockByIdx i = none) :
    lookupM (L.foldl deleteTaskFromMaps s).batchCreatedBlockByIdx i = none := by
  induction L generalizing s with
  | nil => exact h
  | cons j rest ih =>
      exact ih _ (deleteTask_createdBlock_none s j i h)

theorem foldDelete_startTime_none (L : List Nat) (s : AggregatorState) (i : Nat)
    (h : lookupM s.batchStartTimeByIdx i = none) :
    lookupM (L.foldl deleteTaskFromMaps s).batchStartTimeByIdx i = none := by
  induction L generalizing s with
  | nil => exact h
  | cons j rest ih =>
      exact ih _ (deleteTask_startTime_none s j i h)

theorem foldDelete_idxByHash_none (L : List Nat) (s : AggregatorState) (h0 : Bytes)
    (h : lookupM s.batchesIdxByIdentifierHash h0 = none) :
    lookupM (L.foldl deleteTaskFromMaps s).batchesIdxByIdentifierHash h0 = none := by
  induction L generalizing s with
  | nil => exact h
  | cons j rest ih =>
      exact ih _ (deleteTask_idxByHash_none s j h0 h)

theorem foldDelete_dataByHash_none (L : List Nat) (s : AggregatorState) (h0 : Bytes)
    (h : lookupM s.batchDataByIdentifierHash h0 = none) :
    lookupM (L.foldl deleteTaskFromMaps s).batchDataByIdentifierHash h0 = none := by
  induction L generalizing s with
  | nil => exact h
  | cons j rest ih =>
      exact ih _ (deleteTask_dataByHash_none s j h0 h)

/-! ## Deletion completeness and index-0 preservation -/

theorem foldDelete_deletes (L : List Nat) :
    ∀ (s : AggregatorState), InvL s → ∀ i ∈ L,
      lookupM (L.foldl deleteTaskFromMaps s).batchesIdentifierHashByIdx i = none ∧
      lookupM (L.foldl deleteTaskFromMaps s).batchCreatedBlockByIdx i = none ∧
      lookupM (L.foldl deleteTaskFromMaps s).batchStartTimeByIdx i = none ∧
      ∀ h, lookupM s.batchesIdentifierHashByIdx i = some h →
        lookupM (L.foldl deleteTaskFromMaps s).batchesIdxByIdentifierHash h = none ∧
        lookupM (L.foldl deleteTaskFromMaps s).batchDataByIdentifierHash h = none := by
  induction L with
  | nil =>
      intro s hs i hi
      exact absurd hi (List.not_mem_nil i)
  | cons j rest ih =>
      intro s hs i hi
      simp only [List.foldl_cons]
      by_cases hij : i = j
      · subst hij
        cases hx : lookupM s.batchesIdentifierHashByIdx i with
        | some hj =>
            have e1 : lookupM (deleteTaskFromMaps s i).batchesIdentifierHashByIdx i = none := by
              unfold deleteTaskFromMaps
              rw [hx]
              exact lookupM_eraseM_self _ _
            have e2 : lookupM (deleteTaskFromMaps s i).batchCreatedBlockByIdx i = none := by
              unfold deleteTaskFromMaps
              rw [hx]
              exact lookupM_eraseM_self _ _
            have e3 : lookupM (deleteTaskFromMaps s i).batchStartTimeByIdx i = none := by
              unfold deleteTaskFromMaps
              rw [hx]
              exact lookupM_eraseM_self _ _
            have e4 : lookupM (deleteTaskFromMaps s i).batchesIdxByIdentifierHash hj = none := by
              unfold deleteTaskFromMaps
              rw [hx]
              exact lookupM_eraseM_self _ _
            have e5 : lookupM (deleteTaskFromMaps s i).batchDataByIdentifierHash hj = none := by
              unfold deleteTaskFromMaps
              rw [hx]
              exact lookupM_eraseM_self _ _
            refine ⟨foldDelete_hashByIdx_none _ _ _ e1,
                    foldDelete_createdBlock_none _ _ _ e2,
                    foldDelete_startTime_none _ _ _ e3, ?_⟩
            intro h hh
            obtain rfl : hj = h := Option.some.inj hh
            exact ⟨foldDelete_idxByHash_none _ _ _ e4,
                   foldDelete_dataByHash_none _ _ _ e5⟩
        | none =>
            have hb : lookupM s.batchCreatedBlockByIdx i = none := by
              have hbi := hs.block_iff i
              rw [hx] at hbi
              cases hbx : lookupM s.batchCreatedBlockByIdx i with
              | none => rfl
              | some v =>
                  rw [hbx] at hbi
                  simp at hbi
            have ht : lookupM s.batchStartTimeByIdx i = none := by
              have hti := hs.time_iff i
              rw [hx] at hti
              cases htx : lookupM s.batchStartTimeByIdx i with
              | none => rfl
              | some v =>
                  rw [htx] at hti
                  simp at hti
            refine ⟨foldDelete_hashByIdx_none _ _ _
                      (deleteTask_hashByIdx_none s i i hx),
                    foldDelete_createdBlock_none _ _ _
                      (deleteTask_createdBlock_none s i i hb),
                    foldDelete_startTime_none _ _ _
                      (deleteTask_startTime_none s i i ht), ?_⟩
            intro h hh
            exact Option.noConfusion hh
      · have hirest : i ∈ rest := by
          rcases List.mem_cons.mp hi with heq | hr
          · exact absurd heq hij
          · exact hr
        have hs1 := invL_deleteTask s j hs
        have IH := ih (deleteTaskFromMaps s j) hs1 i hirest
        refine ⟨IH.1, IH.2.1, IH.2.2.1, ?_⟩
        intro h hh
        apply IH.2.2.2
        rw [deleteTask_hashByIdx_ne s j i hij]
        exact hh

theorem foldDelete_preserves_zero (L : List Nat) :
    ∀ (s : AggregatorState), InvL s → (∀ j ∈ L, j ≠ 0) →
      lookupM (L.foldl deleteTaskFromMaps s).batchesIdentifierHashByIdx 0 =
        lookupM s.batchesIdentifierHashByIdx 0 ∧
      lookupM (L.foldl deleteTaskFromMaps s).batchCreatedBlockByIdx 0 =
        lookupM s.batchCreatedBlockByIdx 0 ∧
      lookupM (L.foldl deleteTaskFromMaps s).batchStartTimeByIdx 0 =
        lookupM s.batchStartTimeByIdx 0 ∧
      ∀ h0, lookupM s.batchesIdentifierHashByIdx 0 = some h0 →
        lookupM (L.foldl deleteTaskFromMaps s).batchesIdxByIdentifierHash h0 =
          lookupM s.batchesIdxByIdentifierHash h0 ∧
        lookupM (L.foldl deleteTaskFromMaps s).batchDataByIdentifierHash h0 =
          lookupM s.batchDataByIdentifierHash h0 := by
  induction L with
  | nil =>
      intro s hs hL
      exact ⟨rfl, rfl, rfl, fun h0 _ => ⟨rfl, rfl⟩⟩
  | cons j rest ih =>
      intro s hs hL
      have hj0 : j ≠ 0 := hL j (List.mem_cons_self j rest)
      have h0j : (0 : Nat) ≠ j := fun he => hj0 he.symm
      have hrest : ∀ j' ∈ rest, j' ≠ 0 :=
        fun j' hj' => hL j' (List.mem_cons_of_mem j hj')
      have hs1 := invL_deleteTask s j hs
      have a1 := deleteTask_hashByIdx_ne s j 0 h0j
      have a2 := deleteTask_createdBlock_ne s j 0 h0j
      have a3 := deleteTask_startTime_ne s j 0 h0j
      have IH := ih (deleteTaskFromMaps s j) hs1 hrest
      simp only [List.foldl_cons]
      refine ⟨IH.1.trans a1, IH.2.1.trans a2, IH.2.2.1.trans a3, ?_⟩
      intro h0 hh
      have hp : ∀ hj, lookupM s.batchesIdentifierHashByIdx j = some hj → h0 ≠ hj := by
        intro hj hxj heq
        subst heq
        have q1 := hs.hash_of_idx 0 h0 hh
        have q2 := hs.hash_of_idx j h0 hxj
        rw [q1] at q2
        exact h0j (Option.some.inj q2)
      have b1 := deleteTask_idxByHash_pres s j h0 hp
      have b2 := deleteTask_dataByHash_pres s j h0 hp
      have hh1 : lookupM (deleteTaskFromMaps s j).batchesIdentifierHashByIdx 0 = some h0 := by
        rw [a1]
        exact hh
      exact ⟨(IH.2.2.2 h0 hh1).1.trans b1, (IH.2.2.2 h0 hh1).2.trans b2⟩

/-! ## Accounting for nextBatchIndex (uint32 arithmetic) -/

theorem runOps_cons (keccak256 : Bytes → Bytes) (s : SysState) (op : AggOp)
    (l : List AggOp) :
    runOps keccak256 s (op :: l) = runOps keccak256 (stepOp keccak256 s op) l := rfl

theorem admittedCount_cons (keccak256 : Bytes → Bytes) (s : SysState)
    (op : AggOp) (l : List AggOp) :
    admittedCount keccak256 s (op :: l) =
      (match op with
       | .addNewTask mr sender blk now =>
           if s.halted then 0
           else if (AddNewTask keccak256 s.agg mr sender blk now).2.isSome then 1
           else 0
       | .gcTick _ => 0)
      + admittedCount keccak256 (stepOp keccak256 s op) l := rfl

theorem stepOp_halted (keccak256 : Bytes → Bytes) (s : SysState) (op : AggOp)
    (hh : s.halted = true) : stepOp keccak256 s op = s := by
  unfold stepOp
  simp [hh]

theorem stepOp_addNewTask_not_halted (keccak256 : Bytes → Bytes) (s : SysState)
    (mr sender : Bytes) (blk now : Nat) (hh : s.halted = false) :
    stepOp keccak256 s (.addNewTask mr sender blk now) =
      ⟨(AddNewTask keccak256 s.agg mr sender blk now).1, s.lastIdxDeleted, false⟩ := by
  unfold stepOp
  simp [hh]

theorem stepOp_gcTick_none (keccak256 : Bytes → Bytes) (s : SysState) :
    stepOp keccak256 s (.gcTick none) = s := by
  unfold stepOp
  by_cases hh : s.halted <;> simp [hh]

theorem stepOp_nextBatchIndex_gcTick (keccak256 : Bytes → Bytes) (s : SysState)
    (o : Option Bytes) :
    (stepOp keccak256 s (.gcTick o)).agg.nextBatchIndex =
      s.agg.nextBatchIndex := by
  unfold stepOp
  by_cases hh : s.halted
  · simp [hh]
  · simp only [hh, Bool.false_eq_true, if_false]
    cases o with
    | none => rfl
    | some h =>
        cases hr : (clearTasksIteration s.agg s.lastIdxDeleted h).2 with
        | some w =>
            simp only [hr]
            rw [clearTasksIteration_fst]
            exact foldDelete_nextBatchIndex _ _
        | none =>
            simp only [hr]
            rw [clearTasksIteration_fst]
            exact foldDelete_nextBatchIndex _ _

theorem admittedCount_append (keccak256 : Bytes → Bytes) (l1 l2 : List AggOp) :
    ∀ s, admittedCount keccak256 s (l1 ++ l2) =
      admittedCount keccak256 s l1 +
        admittedCount keccak256 (runOps keccak256 s l1) l2 := by
  induction l1 with
  | nil =>
      intro s
      simp [admittedCount, runOps]
  | cons op rest ih =>
      intro s
      rw [List.cons_append, admittedCount_cons, admittedCount_cons, runOps_cons,
        ih (stepOp keccak256 s op), Nat.add_assoc]

theorem nextBatchIndex_runOps (keccak256 : Bytes → Bytes) (ops : List AggOp) :
    ∀ s : SysState, s.agg.nextBatchIndex < UINT32_MOD →
      (runOps keccak256 s ops).agg.nextBatchIndex =
        (s.agg.nextBatchIndex + admittedCount keccak256 s ops) % UINT32_MOD := by
  induction ops with
  | nil =>
      intro s hlt
      simp [runOps, admittedCount, Nat.mod_eq_of_lt hlt]
  | cons op rest ih =>
      intro s hlt
      rw [runOps_cons, admittedCount_cons]
      cases op with
      | gcTick o =>
          have hpres := stepOp_nextBatchIndex_gcTick keccak256 s o
          have hlt2 : (stepOp keccak256 s (.gcTick o)).agg.nextBatchIndex
              < UINT32_MOD := by
            rw [hpres]
            exact hlt
          rw [ih _ hlt2, hpres]
          simp
      | addNewTask mr sender blk now =>
          by_cases hh : s.halted
          · rw [stepOp_halted keccak256 s _ hh, ih s hlt]
            simp [hh]
          · simp only [Bool.not_eq_true] at hh
            rw [stepOp_addNewTask_not_halted keccak256 s mr sender blk now hh]
            by_cases g1 : (lookupM s.agg.batchesIdxByIdentifierHash
                (keccak256 (mr ++ sender))).isSome
            · have hdup : AddNewTask keccak256 s.agg mr sender blk now = (s.agg, none) := by
                unfold AddNewTask
                simp [g1]
              simp only [hdup, hh]
              rw [ih ⟨s.agg, s.lastIdxDeleted, false⟩ hlt]
              simp
            · by_cases g2 : (lookupM s.agg.batchesIdentifierHashByIdx
                  s.agg.nextBatchIndex).isSome
              · have hdup : AddNewTask keccak256 s.agg mr sender blk now = (s.agg, none) := by
                  unfold AddNewTask
                  simp [g1, g2]
                simp only [hdup, hh]
                rw [ih ⟨s.agg, s.lastIdxDeleted, false⟩ hlt]
                simp
              · have hne1 : lookupM s.agg.batchesIdxByIdentifierHash
                    (keccak256 (mr ++ sender)) = none := by
                  cases hx : lookupM s.agg.batchesIdxByIdentifierHash
                      (keccak256 (mr ++ sender)) with
                  | none => rfl
                  | some v => rw [hx] at g1; simp at g1
                have hne2 : lookupM s.agg.batchesIdentifierHashByIdx
                    s.agg.nextBatchIndex = none := by
                  cases hx : lookupM s.agg.batchesIdentifierHashByIdx
                      s.agg.nextBatchIndex with
                  | none => rfl
                  | some v => rw [hx] at g2; simp at g2
                have hsome : (AddNewTask keccak256 s.agg mr sender blk now).2.isSome := by
                  unfold AddNewTask
                  simp [hne1, hne2]
                have hnext : (AddNewTask keccak256 s.agg mr sender blk now).1.nextBatchIndex =
                    (s.agg.nextBatchIndex + 1) % UINT32_MOD := by
                  unfold AddNewTask
                  simp [hne1, hne2]
                have hlt2 : ((⟨(AddNewTask keccak256 s.agg mr sender blk now).1,
                    s.lastIdxDeleted, false⟩ : SysState)).agg.nextBatchIndex
                    < UINT32_MOD := by
                  show (AddNewTask keccak256 s.agg mr sender blk now).1.nextBatchIndex
                      < UINT32_MOD
                  rw [hnext]
                  exact Nat.mod_lt _ (by norm_num [UINT32_MOD])
                rw [ih _ hlt2]
                simp only [hh, hsome, if_pos, Bool.false_eq_true, if_false]
                show ((AddNewTask keccak256 s.agg mr sender blk now).1.nextBatchIndex +
                    admittedCount keccak256 _ rest) % UINT32_MOD = _
                rw [hnext, Nat.mod_add_mod]
                congr 1
                omega

/-! ## A run of n distinct admissions (for the uint32 wrap analysis) -/

/-- The identity function used as a concrete stand-in for the external
keccak256 on scenario inputs (injective on the inputs used). -/
def idKeccak : Bytes → Bytes := fun b => b

/-- n successive `AddNewTask` calls with pairwise distinct merkle roots
`[0], [1], …` and empty sender bytes. -/
def natSeqOps (n : Nat) : List AggOp :=
  (List.range n).map fun i => AggOp.addNewTask [i] [] 0 0

/-- Closed form of the registry after the first n admissions of
`natSeqOps`. -/
def stateOfNat (n : Nat) : AggregatorState :=
  ⟨(List.range n).map (fun i => (i, ([i] : Bytes))),
   (List.range n).map (fun i => (([i] : Bytes), i)),
   (List.range n).map (fun i => (i, 0)),
   (List.range n).map (fun i => (([i] : Bytes), (⟨[i], []⟩ : BatchData))),
   (List.range n).map (fun i => (i, 0)),
   n % UINT32_MOD⟩

theorem lookupM_map_range_none {K V : Type} [DecidableEq K]
    (f : Nat → K) (g : Nat → V) (n : Nat) (k : K)
    (hk : ∀ i, i < n → f i ≠ k) :
    lookupM ((List.range n).map fun i => (f i, g i)) k = none := by
  induction n with
  | zero => simp [lookupM]
  | succ m ih =>
      rw [List.range_succ, List.map_append, lookupM_append,
        ih (fun i hi => hk i (Nat.lt_trans hi (Nat.lt_succ_self m)))]
      simp [lookupM, hk m (Nat.lt_succ_self m)]

theorem natSeq_step (m : Nat) (hm : m + 1 ≤ UINT32_MOD) :
    AddNewTask idKeccak (stateOfNat m) [m] [] 0 0 =
      (stateOfNat (m + 1), some ⟨m, 0, [QUORUM_NUMBER], [QUORUM_THRESHOLD]⟩) := by
  have hmlt : m < UINT32_MOD := Nat.lt_of_lt_of_le (Nat.lt_succ_self m) hm
  have hmod : m % UINT32_MOD = m := Nat.mod_eq_of_lt hmlt
  have g1 : lookupM (stateOfNat m).batchesIdxByIdentifierHash [m] = none := by
    apply lookupM_map_range_none (fun i => ([i] : Bytes)) (fun i => i) m [m]
    intro i hi hcontra
    simp at hcontra
    omega
  have g2 : lookupM (stateOfNat m).batchesIdentifierHashByIdx m = none := by
    apply lookupM_map_range_none (fun i => i) (fun i => ([i] : Bytes)) m m
    intro i hi
    omega
  have g3 : lookupM (stateOfNat m).batchCreatedBlockByIdx m = none := by
    apply lookupM_map_range_none (fun i => i) (fun i => (0 : Nat)) m m
    intro i hi
    omega
  have g4 : lookupM (stateOfNat m).batchDataByIdentifierHash [m] = none := by
    apply lookupM_map_range_none (fun i => ([i] : Bytes))
      (fun i => (⟨[i], []⟩ : BatchData)) m [m]
    intro i hi hcontra
    simp at hcontra
    omega
  have g5 : lookupM (stateOfNat m).batchStartTimeByIdx m = none := by
    apply lookupM_map_range_none (fun i => i) (fun i => (0 : Nat)) m m
    intro i hi
    omega
  have hnextm : (stateOfNat m).nextBatchIndex = m := by
    simp [stateOfNat, hmod]
  unfold AddNewTask
  simp only [idKeccak, List.append_nil, hnextm, g1, g2, Option.isSome_none,
    Bool.false_eq_true, if_false]
  simp only [Prod.mk.injEq]
  refine ⟨?_, trivial⟩
  rw [insertM_of_lookupM_none g2 ([m] : Bytes), insertM_of_lookupM_none g1 m,
    insertM_of_lookupM_none g3 0,
    insertM_of_lookupM_none g4 (⟨[m], []⟩ : BatchData),
    insertM_of_lookupM_none g5 0]
  simp [stateOfNat, List.range_succ]

theorem natSeqOps_split (m : Nat) :
    natSeqOps (m + 1) = natSeqOps m ++ [AggOp.addNewTask [m] [] 0 0] := by
  unfold natSeqOps
  rw [List.range_succ, List.map_append]
  rfl

theorem natSeqOps_run (n : Nat) (hn : n ≤ UINT32_MOD) :
    runOps idKeccak initSysState (natSeqOps n) = ⟨stateOfNat n, 0, false⟩ := by
  induction n with
  | zero =>
      simp [natSeqOps, runOps, initSysState, initAggregatorState, stateOfNat]
  | succ m ih =>
      have hm : m ≤ UINT32_MOD := Nat.le_of_succ_le hn
      have ih' := ih hm
      rw [natSeqOps_split]
      unfold runOps
      rw [List.foldl_append]
      unfold runOps at ih'
      rw [ih']
      simp only [List.foldl_cons, List.foldl_nil]
      rw [stepOp_addNewTask_not_halted idKeccak ⟨stateOfNat m, 0, false⟩
        [m] [] 0 0 rfl]
      show (⟨(AddNewTask idKeccak (stateOfNat m) [m] [] 0 0).1, 0, false⟩ : SysState)
        = ⟨stateOfNat (m + 1), 0, false⟩
      rw [natSeq_step m hn]

theorem natSeqOps_admittedCount (n : Nat) (hn : n ≤ UINT32_MOD) :
    admittedCount idKeccak initSysState (natSeqOps n) = n := by
  induction n with
  | zero => simp [natSeqOps, admittedCount]
  | succ m ih =>
      have hm : m ≤ UINT32_MOD := Nat.le_of_succ_le hn
      rw [natSeqOps_split, admittedCount_append, ih hm, natSeqOps_run m hm]
      rw [admittedCount_cons]
      simp only [admittedCount]
      show m + ((if (⟨stateOfNat m, 0, false⟩ : SysState).halted then 0
        else if (AddNewTask idKeccak (stateOfNat m) [m] [] 0 0).2.isSome then 1
        else 0) + 0) = m + 1
      rw [natSeq_step m hn]
      simp

/-! ## Concrete GC scenario (spec test 5): admit indices 0..9, tick at index 6 -/

/-- Merkle root of the i-th scenario batch. -/
def scenarioMr (i : Nat) : Bytes := [1, i]

/-- Common sender address of the scenario batches. -/
def scenarioSender : Bytes := [2]

/-- Identifier hash of the i-th scenario batch under `idKeccak`
(`scenarioMr i ++ scenarioSender`). -/
def scenarioHash (i : Nat) : Bytes := [1, i, 2]

/-- Ten distinct admissions receiving indices 0 through 9. -/
def scenarioOps : List AggOp :=
  (List.range 10).map fun i => AggOp.addNewTask (scenarioMr i) scenarioSender 100 i

/-- Registry after the ten admissions. -/
def scenarioAfterAdmit : SysState := runOps idKeccak initSysState scenarioOps

/-- Registry after one GC tick whose `GetOldTaskHash` resolves to the
identifier hash of index 6. -/
def scenarioAfterTick : SysState :=
  runOps idKeccak scenarioAfterAdmit [AggOp.gcTick (some (scenarioHash 6))]

/-- Registry after a second GC tick returning the same hash. -/
def scenarioAfterTick2 : SysState :=
  runOps idKeccak scenarioAfterTick [AggOp.gcTick (some (scenarioHash 6))]

/-! ## Claim C1 -/

/-- C1 counterexample: in the spec's GC scenario (ten admissions, tick
whose hash resolves to index 6) the entry of index 0 is still present in
the registry after the tick — the deletion loop of ClearTasksFromMaps
starts at `lastIdxDeleted + 1 = 1` — so the claim that indices 0 through
6 are deleted from all five maps is false at this input. -/
theorem C1_gc_counterexample :
    lookupM scenarioAfterTick.agg.batchesIdentifierHashByIdx 0 =
      some (scenarioHash 0) ∧
    lookupM scenarioAfterTick.agg.batchesIdxByIdentifierHash (scenarioHash 0) =
      some 0 ∧
    ¬ (∀ i ∈ List.range' 0 7,
        lookupM scenarioAfterTick.agg.batchesIdentifierHashByIdx i = none) := by
  decide

/-- C1 (amended): after admitting ten distinct batches with indices 0
through 9, a GC tick whose GetOldTaskHash result resolves to the
identifier hash of index 6 deletes indices 1 through 6 (not 0: the loop
starts at `lastIdxDeleted + 1`) from all five maps, leaves index 0 and
indices 7 through 9 intact, and a subsequent tick returning the same
hash leaves all five maps unchanged (idempotent on the registry). -/
theorem C1_gcEviction_amended :
    (∀ i ∈ List.range' 1 6,
      lookupM scenarioAfterTick.agg.batchesIdentifierHashByIdx i = none ∧
      lookupM scenarioAfterTick.agg.batchCreatedBlockByIdx i = none ∧
      lookupM scenarioAfterTick.agg.batchStartTimeByIdx i = none ∧
      lookupM scenarioAfterTick.agg.batchesIdxByIdentifierHash (scenarioHash i) = none ∧
      lookupM scenarioAfterTick.agg.batchDataByIdentifierHash (scenarioHash i) = none) ∧
    (∀ i ∈ [0, 7, 8, 9],
      lookupM scenarioAfterTick.agg.batchesIdentifierHashByIdx i =
        some (scenarioHash i) ∧
      lookupM scenarioAfterTick.agg.batchesIdxByIdentifierHash (scenarioHash i) =
        some i ∧
      lookupM scenarioAfterTick.agg.batchCreatedBlockByIdx i = some 100 ∧
      lookupM scenarioAfterTick.agg.batchDataByIdentifierHash (scenarioHash i) =
        some ⟨scenarioMr i, scenarioSender⟩ ∧
      lookupM scenarioAfterTick.agg.batchStartTimeByIdx i = some i) ∧
    scenarioAfterTick2.agg = scenarioAfterTick.agg := by
  decide

/-! ## Claim C2 -/

/-- C2: after every sequence of admissions (AddNewTask) and evictions
(ClearTasksFromMaps iterations) starting from the fresh registry, the
two index maps are mutual inverses: `batchesIdxByIdentifierHash` maps a
hash h to an index i if and only if `batchesIdentifierHashByIdx` maps i
to h. -/
theorem C2_indexMaps_mutual_inverses (keccak256 : Bytes → Bytes)
    (ops : List AggOp) (h : Bytes) (i : Nat) :
    lookupM (runOps keccak256 initSysState ops).agg.batchesIdxByIdentifierHash h =
        some i ↔
      lookupM (runOps keccak256 initSysState ops).agg.batchesIdentifierHashByIdx i =
        some h := by
  have hs := invL_runOps keccak256 ops
  exact ⟨hs.idx_of_hash h i, hs.hash_of_idx i h⟩

/-! ## Claim C3 -/

/-- C3: for a pair of AddNewTask calls with equal (merkleRoot,
senderAddress) from a state where the identifier hash is fresh and the
next index unoccupied, the first call is admitted (its one
InitializeNewTaskWithWindow invocation is the only one), the second call
is a no-op on the registry (all five maps and nextBatchIndex unchanged,
no init call), exactly one live entry exists for the identifier, and
nextBatchIndex advances by exactly 1 in total over the two calls. -/
theorem C3_duplicate_admission (keccak256 : Bytes → Bytes) (s : AggregatorState)
    (mr sender : Bytes) (blk1 t1 blk2 t2 : Nat)
    (hfresh : lookupM s.batchesIdxByIdentifierHash (keccak256 (mr ++ sender)) = none)
    (hidx : lookupM s.batchesIdentifierHashByIdx s.nextBatchIndex = none)
    (hnext : s.nextBatchIndex + 1 < UINT32_MOD) :
    (AddNewTask keccak256 s mr sender blk1 t1).2.isSome ∧
    AddNewTask keccak256 (AddNewTask keccak256 s mr sender blk1 t1).1 mr sender blk2 t2
      = ((AddNewTask keccak256 s mr sender blk1 t1).1, none) ∧
    countKeyM (AddNewTask keccak256 (AddNewTask keccak256 s mr sender blk1 t1).1
        mr sender blk2 t2).1.batchesIdxByIdentifierHash (keccak256 (mr ++ sender)) = 1 ∧
    (AddNewTask keccak256 (AddNewTask keccak256 s mr sender blk1 t1).1
        mr sender blk2 t2).1.nextBatchIndex = s.nextBatchIndex + 1 := by
  have e1 : AddNewTask keccak256 s mr sender blk1 t1 =
      (⟨insertM s.batchesIdentifierHashByIdx s.nextBatchIndex
          (keccak256 (mr ++ sender)),
        insertM s.batchesIdxByIdentifierHash (keccak256 (mr ++ sender))
          s.nextBatchIndex,
        insertM s.batchCreatedBlockByIdx s.nextBatchIndex blk1,
        insertM s.batchDataByIdentifierHash (keccak256 (mr ++ sender)) ⟨mr, sender⟩,
        insertM s.batchStartTimeByIdx s.nextBatchIndex t1,
        (s.nextBatchIndex + 1) % UINT32_MOD⟩,
       some ⟨s.nextBatchIndex, blk1, [QUORUM_NUMBER], [QUORUM_THRESHOLD]⟩) := by
    unfold AddNewTask
    simp [hfresh, hidx]
  have e2 : AddNewTask keccak256 (AddNewTask keccak256 s mr sender blk1 t1).1
      mr sender blk2 t2 = ((AddNewTask keccak256 s mr sender blk1 t1).1, none) := by
    rw [e1]
    unfold AddNewTask
    simp [lookupM_insertM_self]
  refine ⟨by rw [e1]; rfl, e2, ?_, ?_⟩
  · rw [e2, e1]
    exact countKeyM_insertM_of_none hfresh _
  · rw [e2, e1]
    exact Nat.mod_eq_of_lt hnext

/-- C3 witness: the duplicate-admission theorem applied at the fresh
registry with a concrete batch. -/
theorem C3_duplicate_admission_witness :
    (AddNewTask idKeccak initAggregatorState [3] [4] 5 6).2.isSome ∧
    AddNewTask idKeccak (AddNewTask idKeccak initAggregatorState [3] [4] 5 6).1
        [3] [4] 7 8
      = ((AddNewTask idKeccak initAggregatorState [3] [4] 5 6).1, none) ∧
    countKeyM (AddNewTask idKeccak
        (AddNewTask idKeccak initAggregatorState [3] [4] 5 6).1
        [3] [4] 7 8).1.batchesIdxByIdentifierHash (idKeccak ([3] ++ [4])) = 1 ∧
    (AddNewTask idKeccak (AddNewTask idKeccak initAggregatorState [3] [4] 5 6).1
        [3] [4] 7 8).1.nextBatchIndex = initAggregatorState.nextBatchIndex + 1 :=
  C3_duplicate_admission idKeccak initAggregatorState [3] [4] 5 6 7 8
    (by decide) (by decide) (by decide)

/-! ## Claim C4 -/

/-- C4 counterexample: after exactly 2^32 admissions of pairwise distinct
batches (the concrete sequence `natSeqOps UINT32_MOD`) the uint32
counter has wrapped: nextBatchIndex is 0 while the total number of
non-duplicate admissions is 2^32, so the counter does not equal the
count, and it is smaller than its value one admission earlier, so it
decreased. -/
theorem C4_counterexample :
    (runOps idKeccak initSysState (natSeqOps UINT32_MOD)).agg.nextBatchIndex = 0 ∧
    admittedCount idKeccak initSysState (natSeqOps UINT32_MOD) = UINT32_MOD ∧
    (runOps idKeccak initSysState (natSeqOps UINT32_MOD)).agg.nextBatchIndex ≠
      admittedCount idKeccak initSysState (natSeqOps UINT32_MOD) ∧
    (runOps idKeccak initSysState (natSeqOps UINT32_MOD)).agg.nextBatchIndex <
      (runOps idKeccak initSysState (natSeqOps (UINT32_MOD - 1))).agg.nextBatchIndex := by
  have h1 := natSeqOps_run UINT32_MOD (le_refl _)
  have h2 := natSeqOps_admittedCount UINT32_MOD (le_refl _)
  have h3 := natSeqOps_run (UINT32_MOD - 1) (by norm_num [UINT32_MOD])
  rw [h1, h2, h3]
  refine ⟨?_, rfl, ?_, ?_⟩
  · simp [stateOfNat, Nat.mod_self]
  · simp [stateOfNat, Nat.mod_self, UINT32_MOD]
  · simp only [stateOfNat, Nat.mod_self]
    rw [Nat.mod_eq_of_lt (by norm_num [UINT32_MOD])]
    norm_num [UINT32_MOD]

/-- C4 (amended): nextBatchIndex starts at 0 and, after any sequence of
registry operations, equals the total number of non-duplicate admissions
reduced modulo 2^32 (each admitted batch increments it by exactly 1 in
uint32 arithmetic, duplicates and GC ticks leave it unchanged); in
particular it equals the exact count, and never decreases, as long as
fewer than 2^32 batches have been admitted. -/
theorem C4_nextBatchIndex_amended (keccak256 : Bytes → Bytes) (ops : List AggOp) :
    initSysState.agg.nextBatchIndex = 0 ∧
    (runOps keccak256 initSysState ops).agg.nextBatchIndex =
      admittedCount keccak256 initSysState ops % UINT32_MOD ∧
    (admittedCount keccak256 initSysState ops < UINT32_MOD →
      (runOps keccak256 initSysState ops).agg.nextBatchIndex =
        admittedCount keccak256 initSysState ops) := by
  have h := nextBatchIndex_runOps keccak256 ops initSysState
    (by norm_num [initSysState, initAggregatorState, UINT32_MOD])
  refine ⟨rfl, ?_, ?_⟩
  · rw [h]
    simp [initSysState, initAggregatorState]
  · intro hlt
    rw [h]
    rw [show initSysState.agg.nextBatchIndex = 0 from rfl, Nat.zero_add]
    exact Nat.mod_eq_of_lt hlt

/-- C4 witness: the amended theorem applied at a concrete three-admission
run, whose count 3 is below 2^32 and equals the counter exactly. -/
theorem C4_nextBatchIndex_witness :
    admittedCount idKeccak initSysState (natSeqOps 3) < UINT32_MOD ∧
    (runOps idKeccak initSysState (natSeqOps 3)).agg.nextBatchIndex =
      admittedCount idKeccak initSysState (natSeqOps 3) :=
  ⟨by decide, (C4_nextBatchIndex_amended idKeccak (natSeqOps 3)).2.2 (by decide)⟩

/-! ## Claim C5 -/

/-- Closed form of an admitted AddNewTask call: when the identifier hash
is fresh and the next index unoccupied, the call inserts into all five
maps, bumps the counter, and makes the init call. -/
theorem AddNewTask_of_fresh (keccak256 : Bytes → Bytes) (s : AggregatorState)
    (mr sender : Bytes) (blk t : Nat)
    (hfresh : lookupM s.batchesIdxByIdentifierHash (keccak256 (mr ++ sender)) = none)
    (hidx : lookupM s.batchesIdentifierHashByIdx s.nextBatchIndex = none) :
    AddNewTask keccak256 s mr sender blk t =
      (⟨insertM s.batchesIdentifierHashByIdx s.nextBatchIndex
          (keccak256 (mr ++ sender)),
        insertM s.batchesIdxByIdentifierHash (keccak256 (mr ++ sender))
          s.nextBatchIndex,
        insertM s.batchCreatedBlockByIdx s.nextBatchIndex blk,
        insertM s.batchDataByIdentifierHash (keccak256 (mr ++ sender)) ⟨mr, sender⟩,
        insertM s.batchStartTimeByIdx s.nextBatchIndex t,
        (s.nextBatchIndex + 1) % UINT32_MOD⟩,
       some ⟨s.nextBatchIndex, blk, [QUORUM_NUMBER], [QUORUM_THRESHOLD]⟩) := by
  unfold AddNewTask
  simp [hfresh, hidx]

/-- C5: the registry key of an admitted batch is exactly keccak256 of the
52-byte concatenation merkleRoot ++ senderAddress, and an error-free BLS
response for that batch's index produces exactly one
SendAggregatedResponse call whose identifier, merkle root, and sender
address equal that key and the admitted values. -/
theorem C5_identifier_and_send (keccak256 : Bytes → Bytes) (s : AggregatorState)
    (mr sender : Bytes) (blk t : Nat) (waitErr : Option String)
    (writerResult : Except String (Option Receipt))
    (hmr : mr.length = 32) (hsender : sender.length = 20)
    (hfresh : lookupM s.batchesIdxByIdentifierHash (keccak256 (mr ++ sender)) = none)
    (hidx : lookupM s.batchesIdentifierHashByIdx s.nextBatchIndex = none) :
    (mr ++ sender).length = 52 ∧
    lookupM (AddNewTask keccak256 s mr sender blk t).1.batchesIdxByIdentifierHash
      (keccak256 (mr ++ sender)) = some s.nextBatchIndex ∧
    (handleBlsAggServiceResponse (AddNewTask keccak256 s mr sender blk t).1
        ⟨s.nextBatchIndex, none⟩ waitErr writerResult).2.filter isSendCallEvent =
      [AggEvent.sendCall (keccak256 (mr ++ sender)) mr sender] := by
  refine ⟨by rw [List.length_append, hmr, hsender], ?_, ?_⟩
  · rw [AddNewTask_of_fresh keccak256 s mr sender blk t hfresh hidx]
    exact lookupM_insertM_self _ _ _
  · rw [AddNewTask_of_fresh keccak256 s mr sender blk t hfresh hidx]
    unfold handleBlsAggServiceResponse fetchedIdentifierHash fetchedBatchData
      fetchedTaskCreatedBlock
    simp only [lookupM_insertM_self, Option.getD_some]
    cases writerResult with
    | ok r =>
        simp [sendAggregatedResponse, isSendCallEvent, fetchedIdentifierHash,
          lookupM_insertM_self]
    | error e =>
        simp [sendAggregatedResponse, isSendCallEvent, fetchedIdentifierHash,
          lookupM_insertM_self]

/-- C5 witness: the theorem applied to a concrete 32-byte merkle root and
20-byte sender at the fresh registry. -/
theorem C5_identifier_and_send_witness :
    (List.replicate 32 7 ++ List.replicate 20 9).length = 52 ∧
    lookupM (AddNewTask idKeccak initAggregatorState (List.replicate 32 7)
        (List.replicate 20 9) 100 0).1.batchesIdxByIdentifierHash
      (idKeccak (List.replicate 32 7 ++ List.replicate 20 9)) =
        some initAggregatorState.nextBatchIndex ∧
    (handleBlsAggServiceResponse (AddNewTask idKeccak initAggregatorState
          (List.replicate 32 7) (List.replicate 20 9) 100 0).1
        ⟨initAggregatorState.nextBatchIndex, none⟩ none
        (Except.ok (some ⟨"0xabc", "17"⟩))).2.filter isSendCallEvent =
      [AggEvent.sendCall (idKeccak (List.replicate 32 7 ++ List.replicate 20 9))
        (List.replicate 32 7) (List.replicate 20 9)] :=
  C5_identifier_and_send idKeccak initAggregatorState (List.replicate 32 7)
    (List.replicate 20 9) 100 0 none (Except.ok (some ⟨"0xabc", "17"⟩))
    (by decide) (by decide) (by decide) (by decide)

/-! ## Claim C6 -/

/-- C6: for every BLS response whose err field is non-nil, the handler
returns with the registry state unchanged and its only external effects
are the error telemetry and the trace finish — in particular no
SendAggregatedResponse call and no retry. -/
theorem C6_error_response_no_send (s : AggregatorState)
    (resp : BlsAggregationServiceResponse) (waitErr : Option String)
    (writerResult : Except String (Option Receipt)) (e : String)
    (herr : resp.err = some e) :
    (handleBlsAggServiceResponse s resp waitErr writerResult).1 = s ∧
    (handleBlsAggServiceResponse s resp waitErr writerResult).2 =
      [AggEvent.logTaskError (fetchedBatchData s resp.taskIndex).batchMerkleRoot,
       AggEvent.finishTrace (fetchedBatchData s resp.taskIndex).batchMerkleRoot] ∧
    (handleBlsAggServiceResponse s resp waitErr writerResult).2.filter
      isSendCallEvent = [] := by
  unfold handleBlsAggServiceResponse
  rw [herr]
  exact ⟨rfl, rfl, by simp [isSendCallEvent]⟩

/-- C6 witness: the theorem applied to a concrete error response at the
fresh registry. -/
theorem C6_error_response_no_send_witness :
    (handleBlsAggServiceResponse initAggregatorState
        ⟨0, some "quorum_not_reached"⟩ none (Except.ok none)).1 =
      initAggregatorState ∧
    (handleBlsAggServiceResponse initAggregatorState
        ⟨0, some "quorum_not_reached"⟩ none (Except.ok none)).2 =
      [AggEvent.logTaskError (fetchedBatchData initAggregatorState 0).batchMerkleRoot,
       AggEvent.finishTrace (fetchedBatchData initAggregatorState 0).batchMerkleRoot] ∧
    (handleBlsAggServiceResponse initAggregatorState
        ⟨0, some "quorum_not_reached"⟩ none (Except.ok none)).2.filter
      isSendCallEvent = [] :=
  C6_error_response_no_send initAggregatorState ⟨0, some "quorum_not_reached"⟩
    none (Except.ok none) "quorum_not_reached" rfl

/-! ## Claim C7 -/

/-- Decides whether an event is the failure-path telemetry record. -/
def isTaskErrorEvent : AggEvent → Bool
  | .logTaskError _ => true
  | _ => false

/-- C7: sendAggregatedResponse returns the receipt (and no error) when
the chain writer succeeds and returns the error when it fails; when the
writer succeeds with a nil receipt the caller still takes the success
path: telemetry records the sentinel "Unknown" strings for the tx hash
and gas price and the failure-path error telemetry never fires. -/
theorem C7_receipt_or_error (id mr sa : Bytes) (r : Option Receipt) (e : String)
    (s : AggregatorState) (resp : BlsAggregationServiceResponse)
    (waitErr : Option String)
    (herr : resp.err = none) :
    (sendAggregatedResponse id mr sa (Except.ok r)).1 = Except.ok r ∧
    (sendAggregatedResponse id mr sa (Except.error e)).1 = Except.error e ∧
    AggEvent.taskSentToEthereum (fetchedBatchData s resp.taskIndex).batchMerkleRoot
        "Unknown" "Unknown" ∈
      (handleBlsAggServiceResponse s resp waitErr (Except.ok none)).2 ∧
    (handleBlsAggServiceResponse s resp waitErr (Except.ok none)).2.filter
      isTaskErrorEvent = [] := by
  refine ⟨rfl, rfl, ?_, ?_⟩
  · unfold handleBlsAggServiceResponse
    rw [herr]
    simp [sendAggregatedResponse]
  · unfold handleBlsAggServiceResponse
    rw [herr]
    simp [sendAggregatedResponse, isTaskErrorEvent]

/-- C7 witness: the theorem applied at concrete arguments, with a BLS
response carrying no error and the writer returning success without a
receipt. -/
theorem C7_receipt_or_error_witness :
    (sendAggregatedResponse [1] [2] [3] (Except.ok (some ⟨"0xdead", "42"⟩))).1 =
      Except.ok (some ⟨"0xdead", "42"⟩) ∧
    (sendAggregatedResponse [1] [2] [3] (Except.error "boom")).1 =
      Except.error "boom" ∧
    AggEvent.taskSentToEthereum
        (fetchedBatchData initAggregatorState 0).batchMerkleRoot
        "Unknown" "Unknown" ∈
      (handleBlsAggServiceResponse initAggregatorState ⟨0, none⟩ none
        (Except.ok none)).2 ∧
    (handleBlsAggServiceResponse initAggregatorState ⟨0, none⟩ none
        (Except.ok none)).2.filter isTaskErrorEvent = [] :=
  C7_receipt_or_error [1] [2] [3] (some ⟨"0xdead", "42"⟩) "boom"
    initAggregatorState ⟨0, none⟩ none rfl

/-! ## Claim C8 -/

/-- All five per-index entries exist for index i: the two index-map
entries (with matching hash), the payload entry, the creation-block
entry and the start-time entry. -/
def allFivePresent (s : AggregatorState) (i : Nat) : Prop :=
  ∃ h, lookupM s.batchesIdentifierHashByIdx i = some h ∧
       lookupM s.batchesIdxByIdentifierHash h = some i ∧
       (lookupM s.batchDataByIdentifierHash h).isSome = true ∧
       (lookupM s.batchCreatedBlockByIdx i).isSome = true ∧
       (lookupM s.batchStartTimeByIdx i).isSome = true

/-- No index-keyed entry exists for index i (and hence, there being no
stored hash, no hash-keyed entry belongs to i either). -/
def allIdxAbsent (s : AggregatorState) (i : Nat) : Prop :=
  lookupM s.batchesIdentifierHashByIdx i = none ∧
  lookupM s.batchCreatedBlockByIdx i = none ∧
  lookupM s.batchStartTimeByIdx i = none

/-- The per-index dichotomy follows from the registry invariant. -/
theorem invL_allFive (s : AggregatorState) (hs : InvL s) (i : Nat) :
    allFivePresent s i ∨ allIdxAbsent s i := by
  cases hx : lookupM s.batchesIdentifierHashByIdx i with
  | some h =>
      left
      refine ⟨h, hx, hs.hash_of_idx i h hx, hs.data_of_idx i h hx, ?_, ?_⟩
      · rw [hs.block_iff i, hx]
        rfl
      · rw [hs.time_iff i, hx]
        rfl
  | none =>
      right
      refine ⟨hx, ?_, ?_⟩
      · have hbi := hs.block_iff i
        rw [hx] at hbi
        cases hbx : lookupM s.batchCreatedBlockByIdx i with
        | none => rfl
        | some v => rw [hbx] at hbi; simp at hbi
      · have hti := hs.time_iff i
        rw [hx] at hti
        cases htx : lookupM s.batchStartTimeByIdx i with
        | none => rfl
        | some v => rw [htx] at hti; simp at hti

/-- When the system is not halted, a GC tick's registry component is the
first component of `clearTasksIteration` (in both the terminating and
the diverging case). -/
theorem stepOp_gcTick_some_agg (keccak256 : Bytes → Bytes) (s : SysState)
    (h : Bytes) (hh : s.halted = false) :
    (stepOp keccak256 s (.gcTick (some h))).agg =
      (clearTasksIteration s.agg s.lastIdxDeleted h).1 := by
  unfold stepOp
  simp only [hh, Bool.false_eq_true, if_false]
  cases hr : (clearTasksIteration s.agg s.lastIdxDeleted h).2 with
  | some w => simp [hr]
  | none => simp [hr]

/-- C8: per-index entries are inserted and deleted atomically.  In every
reachable registry state (i) each non-duplicate AddNewTask call leaves
all five entries for the new index present, (ii) for every index either
all five entries exist or none do, and (iii) for every index the GC
deletion loop's `uint32` counter ever reaches, the map state the loop
produces retains no entry for that index in any of the five maps (the
three index-keyed entries are gone, and so are the hash-keyed entries
under the stored hash). -/
theorem C8_atomic_insert_delete (keccak256 : Bytes → Bytes) (ops : List AggOp) :
    (∀ mr sender blk t,
      (AddNewTask keccak256 (runOps keccak256 initSysState ops).agg
        mr sender blk t).2.isSome = true →
      allFivePresent (AddNewTask keccak256 (runOps keccak256 initSysState ops).agg
        mr sender blk t).1 (runOps keccak256 initSysState ops).agg.nextBatchIndex) ∧
    (∀ i, allFivePresent (runOps keccak256 initSysState ops).agg i ∨
      allIdxAbsent (runOps keccak256 initSysState ops).agg i) ∧
    (∀ oldHash i,
      i ∈ gcLoopIndices (runOps keccak256 initSysState ops).lastIdxDeleted
        ((lookupM (runOps keccak256 initSysState ops).agg.batchesIdxByIdentifierHash
            oldHash).getD 0) →
      allIdxAbsent (clearTasksIteration (runOps keccak256 initSysState ops).agg
        (runOps keccak256 initSysState ops).lastIdxDeleted oldHash).1 i ∧
      ∀ h, lookupM (runOps keccak256 initSysState ops).agg.batchesIdentifierHashByIdx
          i = some h →
        lookupM (clearTasksIteration (runOps keccak256 initSysState ops).agg
          (runOps keccak256 initSysState ops).lastIdxDeleted
          oldHash).1.batchesIdxByIdentifierHash h = none ∧
        lookupM (clearTasksIteration (runOps keccak256 initSysState ops).agg
          (runOps keccak256 initSysState ops).lastIdxDeleted
          oldHash).1.batchDataByIdentifierHash h = none) := by
  have hs := invL_runOps keccak256 ops
  refine ⟨?_, fun i => invL_allFive _ hs i, ?_⟩
  · intro mr sender blk t hsome
    by_cases g1 : (lookupM (runOps keccak256 initSysState ops).agg.batchesIdxByIdentifierHash
        (keccak256 (mr ++ sender))).isSome
    · exfalso
      unfold AddNewTask at hsome
      simp [g1] at hsome
    · by_cases g2 : (lookupM (runOps keccak256 initSysState ops).agg.batchesIdentifierHashByIdx
          (runOps keccak256 initSysState ops).agg.nextBatchIndex).isSome
      · exfalso
        unfold AddNewTask at hsome
        simp [g2] at hsome
      · have hfresh : lookupM (runOps keccak256 initSysState ops).agg.batchesIdxByIdentifierHash
            (keccak256 (mr ++ sender)) = none := by
          cases hx : lookupM (runOps keccak256 initSysState ops).agg.batchesIdxByIdentifierHash
              (keccak256 (mr ++ sender)) with
          | none => rfl
          | some v => rw [hx] at g1; simp at g1
        have hidx : lookupM (runOps keccak256 initSysState ops).agg.batchesIdentifierHashByIdx
            (runOps keccak256 initSysState ops).agg.nextBatchIndex = none := by
          cases hx : lookupM (runOps keccak256 initSysState ops).agg.batchesIdentifierHashByIdx
              (runOps keccak256 initSysState ops).agg.nextBatchIndex with
          | none => rfl
          | some v => rw [hx] at g2; simp at g2
        rw [AddNewTask_of_fresh keccak256 _ mr sender blk t hfresh hidx]
        refine ⟨keccak256 (mr ++ sender), lookupM_insertM_self _ _ _,
          lookupM_insertM_self _ _ _, ?_, ?_, ?_⟩
        · rw [lookupM_insertM_self]
          rfl
        · rw [lookupM_insertM_self]
          rfl
        · rw [lookupM_insertM_self]
          rfl
  · intro oldHash i hmem
    have hdel := foldDelete_deletes _ (runOps keccak256 initSysState ops).agg hs i hmem
    rw [clearTasksIteration_fst]
    exact ⟨⟨hdel.1, hdel.2.1, hdel.2.2.1⟩, hdel.2.2.2⟩

/-- C8 witness: the theorem's GC-deletion part applied in the concrete
ten-batch scenario, at index 3 of the deleted range. -/
theorem C8_atomic_insert_delete_witness :
    3 ∈ gcLoopIndices scenarioAfterAdmit.lastIdxDeleted
      ((lookupM scenarioAfterAdmit.agg.batchesIdxByIdentifierHash
          (scenarioHash 6)).getD 0) ∧
    allIdxAbsent (clearTasksIteration scenarioAfterAdmit.agg
      scenarioAfterAdmit.lastIdxDeleted (scenarioHash 6)).1 3 :=
  ⟨by decide,
   ((C8_atomic_insert_delete idKeccak scenarioOps).2.2 (scenarioHash 6) 3
     (by decide)).1⟩

/-! ## Claim C9 -/

/-- C9: for a BLS response whose task index has no registry entry and
whose err field is nil, the handler does not detect the absence: the Go
comma-ok-less map reads yield the zero identifier hash, the zero batch
data (zero merkle root and sender address) and creation block 0, the
one-block wait is performed from block 0, and SendAggregatedResponse is
called with that zero-valued payload. -/
theorem C9_unknown_index_zero_send (s : AggregatorState)
    (resp : BlsAggregationServiceResponse) (waitErr : Option String)
    (writerResult : Except String (Option Receipt))
    (h1 : lookupM s.batchesIdentifierHashByIdx resp.taskIndex = none)
    (h2 : lookupM s.batchDataByIdentifierHash zeroIdentifierHash = none)
    (h3 : lookupM s.batchCreatedBlockByIdx resp.taskIndex = none)
    (herr : resp.err = none) :
    AggEvent.sendCall zeroIdentifierHash zeroMerkleRoot zeroSenderAddress ∈
      (handleBlsAggServiceResponse s resp waitErr writerResult).2 ∧
    AggEvent.waitForOneBlock 0 ∈
      (handleBlsAggServiceResponse s resp waitErr writerResult).2 := by
  have e1 : fetchedIdentifierHash s resp.taskIndex = zeroIdentifierHash := by
    unfold fetchedIdentifierHash
    rw [h1]
    rfl
  have e2 : fetchedBatchData s resp.taskIndex = zeroBatchData := by
    unfold fetchedBatchData
    rw [e1, h2]
    rfl
  have e3 : fetchedTaskCreatedBlock s resp.taskIndex = 0 := by
    unfold fetchedTaskCreatedBlock
    rw [h3]
    rfl
  unfold handleBlsAggServiceResponse
  rw [herr, e1, e2, e3]
  cases writerResult with
  | ok r => simp [sendAggregatedResponse, zeroBatchData]
  | error e => simp [sendAggregatedResponse, zeroBatchData]

/-- C9 witness: the theorem applied at the fresh registry with an
error-free response for the never-admitted index 5. -/
theorem C9_unknown_index_zero_send_witness :
    AggEvent.sendCall zeroIdentifierHash zeroMerkleRoot zeroSenderAddress ∈
      (handleBlsAggServiceResponse initAggregatorState ⟨5, none⟩ none
        (Except.ok none)).2 ∧
    AggEvent.waitForOneBlock 0 ∈
      (handleBlsAggServiceResponse initAggregatorState ⟨5, none⟩ none
        (Except.ok none)).2 :=
  C9_unknown_index_zero_send initAggregatorState ⟨5, none⟩ none (Except.ok none)
    (by decide) (by decide) (by decide) rfl

/-! ## Claim C10 -/

/-- Concrete registry holding live entries at index 0 and at index
MaxUint32 = 2^32 - 1 (the index reached after 2^32 admissions), used to
exhibit the `uint32` wrap of the GC loop counter. -/
def wrapState : AggregatorState :=
  ⟨[(0, [5]), (4294967295, [7])],
   [([5], 0), ([7], 4294967295)],
   [(0, 10), (4294967295, 11)],
   [([5], ⟨[5], [6]⟩), ([7], ⟨[7], [8]⟩)],
   [(0, 20), (4294967295, 21)],
   0⟩

theorem foldDelete_id_of_absent (L : List Nat) (s : AggregatorState)
    (h : ∀ j ∈ L, lookupM s.batchesIdentifierHashByIdx j = none) :
    L.foldl deleteTaskFromMaps s = s := by
  induction L with
  | nil => rfl
  | cons j rest ih =>
      have e : deleteTaskFromMaps s j = s := by
        unfold deleteTaskFromMaps
        rw [h j (List.mem_cons_self j rest)]
      rw [List.foldl_cons, e]
      exact ih (fun j' hj' => h j' (List.mem_cons_of_mem j hj'))

theorem gcLoopIndices_wrap :
    gcLoopIndices 0 (UINT32_MOD - 1) =
      (List.range' 1 (UINT32_MOD - 2) ++ [UINT32_MOD - 1]) ++ [0] := by
  simp only [gcLoopIndices]
  norm_num [UINT32_MOD]
  rw [show (4294967295 : Nat) = 4294967294 + 1 from rfl, List.range'_1_concat]
  simp [List.range_succ]

/-- C10 counterexample: with live entries at indices 0 and MaxUint32, a
GC tick whose reported hash resolves to taskIdxToDelete = 2^32 - 1
refutes "the registry entry at index 0 is never deleted from any of the
five maps by any GC iteration": the `uint32` exit condition
`i <= taskIdxToDelete` holds for every uint32, the loop counter wraps
past MaxUint32 to i = 0 and the body deletes index 0's entries from all
five maps, while the loop never exits (the watermark is never assigned,
second component `none`). -/
theorem C10_gc_counterexample :
    lookupM wrapState.batchesIdentifierHashByIdx 0 = some [5] ∧
    (clearTasksIteration wrapState 0 [7]).2 = none ∧
    lookupM (clearTasksIteration wrapState 0 [7]).1.batchesIdentifierHashByIdx 0 = none ∧
    lookupM (clearTasksIteration wrapState 0 [7]).1.batchCreatedBlockByIdx 0 = none ∧
    lookupM (clearTasksIteration wrapState 0 [7]).1.batchStartTimeByIdx 0 = none ∧
    lookupM (clearTasksIteration wrapState 0 [7]).1.batchesIdxByIdentifierHash [5] = none ∧
    lookupM (clearTasksIteration wrapState 0 [7]).1.batchDataByIdentifierHash [5] = none := by
  have hidx : (lookupM wrapState.batchesIdxByIdentifierHash [7]).getD 0 =
      UINT32_MOD - 1 := by decide
  have hsnd : (clearTasksIteration wrapState 0 [7]).2 = none := by
    simp only [clearTasksIteration]
    rw [hidx]
    simp
  have habs : ∀ j ∈ List.range' 1 (UINT32_MOD - 2),
      lookupM wrapState.batchesIdentifierHashByIdx j = none := by
    intro j hj
    have hb := List.mem_range'_1.mp hj
    have hM : UINT32_MOD = 4294967296 := rfl
    rw [hM] at hb
    have h0 : ¬ ((0 : Nat) = j) := by omega
    have h1 : ¬ ((4294967295 : Nat) = j) := by omega
    simp [wrapState, lookupM, h0, h1]
  have hstate : (clearTasksIteration wrapState 0 [7]).1 =
      deleteTaskFromMaps (deleteTaskFromMaps wrapState (UINT32_MOD - 1)) 0 := by
    rw [clearTasksIteration_fst, hidx, gcLoopIndices_wrap,
      List.foldl_append, List.foldl_append, foldDelete_id_of_absent _ _ habs]
    simp only [List.foldl_cons, List.foldl_nil]
  refine ⟨by decide, hsnd, ?_, ?_, ?_, ?_, ?_⟩ <;> rw [hstate] <;> decide

/-- C10 (amended): the GC deletion loop runs from lastIdxDeleted + 1
upward, with the watermark initialized to 0 and overwritten by the
looked-up index — 0 when the reported hash is absent.  As long as the
looked-up index is below MaxUint32 = 2^32 - 1: (i) a tick whose hash is
unknown leaves the registry unchanged and resets the watermark to 0, and
(ii) in every reachable state, a tick never deletes the entry at index 0
from any of the five maps (the three index-keyed entries at 0 and the
two hash-keyed entries under its stored hash are preserved).  At a
looked-up index of exactly 2^32 - 1 the uint32 loop counter wraps past
MaxUint32, deletes every index including 0, and never terminates
(see the counterexample). -/
theorem C10_gc_watermark_amended (keccak256 : Bytes → Bytes) :
    initSysState.lastIdxDeleted = 0 ∧
    (∀ (s : AggregatorState) (last : Nat) (oldHash : Bytes),
      last + 1 < UINT32_MOD →
      lookupM s.batchesIdxByIdentifierHash oldHash = none →
      clearTasksIteration s last oldHash = (s, some 0)) ∧
    (∀ (ops : List AggOp) (oldHash : Bytes),
      (lookupM (runOps keccak256 initSysState ops).agg.batchesIdxByIdentifierHash
          oldHash).getD 0 ≠ UINT32_MOD - 1 →
      lookupM (stepOp keccak256 (runOps keccak256 initSysState ops)
          (.gcTick (some oldHash))).agg.batchesIdentifierHashByIdx 0 =
        lookupM (runOps keccak256 initSysState ops).agg.batchesIdentifierHashByIdx 0 ∧
      lookupM (stepOp keccak256 (runOps keccak256 initSysState ops)
          (.gcTick (some oldHash))).agg.batchCreatedBlockByIdx 0 =
        lookupM (runOps keccak256 initSysState ops).agg.batchCreatedBlockByIdx 0 ∧
      lookupM (stepOp keccak256 (runOps keccak256 initSysState ops)
          (.gcTick (some oldHash))).agg.batchStartTimeByIdx 0 =
        lookupM (runOps keccak256 initSysState ops).agg.batchStartTimeByIdx 0 ∧
      ∀ h0, lookupM (runOps keccak256 initSysState ops).agg.batchesIdentifierHashByIdx
          0 = some h0 →
        lookupM (stepOp keccak256 (runOps keccak256 initSysState ops)
            (.gcTick (some oldHash))).agg.batchesIdxByIdentifierHash h0 =
          lookupM (runOps keccak256 initSysState ops).agg.batchesIdxByIdentifierHash h0 ∧
        lookupM (stepOp keccak256 (runOps keccak256 initSysState ops)
            (.gcTick (some oldHash))).agg.batchDataByIdentifierHash h0 =
          lookupM (runOps keccak256 initSysState ops).agg.batchDataByIdentifierHash h0) := by
  refine ⟨rfl, ?_, ?_⟩
  · intro s last oldHash hlast hnone
    have hstart : (last + 1) % UINT32_MOD = last + 1 := Nat.mod_eq_of_lt hlast
    have hgc : gcLoopIndices last 0 = [] := by
      simp only [gcLoopIndices]
      have h0 : ¬ ((0 : Nat) = UINT32_MOD - 1) := by norm_num [UINT32_MOD]
      have h1 : ¬ (last + 1 ≤ 0) := by omega
      rw [hstart]
      simp [h0, h1]
    simp only [clearTasksIteration]
    rw [hnone]
    have h0 : ¬ ((0 : Nat) = UINT32_MOD - 1) := by norm_num [UINT32_MOD]
    simp [hgc, h0]
  · intro ops oldHash hne
    by_cases hh : (runOps keccak256 initSysState ops).halted
    · have e := stepOp_halted keccak256 (runOps keccak256 initSysState ops)
        (.gcTick (some oldHash)) hh
      rw [e]
      exact ⟨rfl, rfl, rfl, fun h0 _ => ⟨rfl, rfl⟩⟩
    · simp only [Bool.not_eq_true] at hh
      have hs := invL_runOps keccak256 ops
      have hw := lastIdx_runOps keccak256 ops
      have hagg := stepOp_gcTick_some_agg keccak256
        (runOps keccak256 initSysState ops) oldHash hh
      rw [hagg, clearTasksIteration_fst]
      apply foldDelete_preserves_zero _ _ hs
      intro j hj
      simp only [gcLoopIndices] at hj
      rw [if_neg hne, Nat.mod_eq_of_lt hw] at hj
      by_cases hle : (runOps keccak256 initSysState ops).lastIdxDeleted + 1 ≤
          (lookupM (runOps keccak256 initSysState ops).agg.batchesIdxByIdentifierHash
            oldHash).getD 0
      · rw [if_pos hle] at hj
        have := (List.mem_range'_1.mp hj).1
        omega
      · rw [if_neg hle] at hj
        exact absurd hj (List.not_mem_nil j)

/-- C10 witness: the unknown-hash part of the amended theorem applied to
a concrete nonempty registry — one admitted batch, watermark 4, a tick
whose hash matches nothing: the registry is unchanged and the watermark
becomes 0. -/
theorem C10_gc_watermark_amended_witness :
    (4 : Nat) + 1 < UINT32_MOD ∧
    lookupM (AddNewTask idKeccak initAggregatorState [3] [4] 5 6).1.batchesIdxByIdentifierHash
      [9, 9] = none ∧
    clearTasksIteration (AddNewTask idKeccak initAggregatorState [3] [4] 5 6).1 4
      [9, 9] = ((AddNewTask idKeccak initAggregatorState [3] [4] 5 6).1, some 0) :=
  ⟨by decide, by decide,
   (C10_gc_watermark_amended idKeccak).2.1
     (AddNewTask idKeccak initAggregatorState [3] [4] 5 6).1 4 [9, 9]
     (by decide) (by decide)⟩
